import Mathlib

/-!
Verification development for the `bun-plugin-bundle` asset bundling plugin
(`src/index.ts`).  The definitions below are a shallow embedding of the
plugin's build-time asset resolution pipeline and of the runtime snippet the
plugin injects into build entrypoints (override-table registration, resolver
patching, embed-mode extraction).  Host primitives that the plugin merely
calls (Node `path`/`url` helpers, `Bun.file(...).exists`,
`import.meta.resolve`) are modelled as explicit environment parameters, since
they are external collaborators of the code under verification.
-/

namespace BunPluginBundle

/-! ### String primitives

JavaScript string operations used by the plugin, modelled on `String.data`
character lists so that they compute by kernel reduction. -/

/-- JS `s.startsWith(p)`. -/
def strStartsWith (s p : String) : Bool :=
  List.isPrefixOf p.data s.data

/-- JS `String.prototype.split` against a single-character separator class:
splitting at every separator character, keeping empty pieces between
consecutive separators (the plugin always filters those out afterwards,
which makes this equivalent to splitting on separator runs). -/
def splitSep (p : Char → Bool) : List Char → List String
  | [] => [""]
  | c :: rest =>
    let r := splitSep p rest
    if p c then "" :: r
    else
      match r with
      | [] => [String.mk [c]]
      | s :: tail => String.mk (c :: s.data) :: tail

/-- JS `value.split(sep).filter(Boolean)`: the non-empty pieces. -/
def splitNonEmpty (p : Char → Bool) (value : String) : List String :=
  (splitSep p value.data).filter (fun s => s ≠ "")

/-- JS `array.join('/')`. -/
def joinSlash : List String → String
  | [] => ""
  | [s] => s
  | s :: rest => s ++ "/" ++ joinSlash rest

/-! ### Key Normalizer (src/index.ts lines 59-65) -/

/-- The character class `[A-Za-z0-9._-]` of the sanitization regex. -/
def isAllowedChar (c : Char) : Bool :=
  ('A' ≤ c && c ≤ 'Z') || ('a' ≤ c && c ≤ 'z') || ('0' ≤ c && c ≤ '9') ||
    c = '.' || c = '_' || c = '-'

/-- `sanitizeSegment`: `value.replace(/[^A-Za-z0-9._-]/g, '-')`. -/
def sanitizeSegment (value : String) : String :=
  String.mk (value.data.map (fun c => if isAllowedChar c then c else '-'))

/-- Separator class of `normalizeTargetName`'s split regex `[\\/]+`. -/
def isPathSep (c : Char) : Bool := c = '/' || c = '\\'

/-- `normalizeTargetName`: split on path separators, drop empty segments,
sanitize each segment, rejoin with `/`; empty input falls back to the
literal segment `asset`. -/
def normalizeTargetName (value : String) : String :=
  let segments := splitNonEmpty isPathSep value
  if segments.isEmpty then sanitizeSegment "asset"
  else joinSlash (segments.map sanitizeSegment)

/-- The `relativePath` assignment of src/index.ts lines 242-244:
`baseName = targetName ?? path.basename(sourcePath)`;
`relativePath = targetName !== undefined ? normalizeTargetName(targetName)
: sanitizeSegment(baseName || specifier)`.
`sourceBaseName` stands for `path.basename(sourcePath)`. -/
def relativePathFor (targetName : Option String) (sourceBaseName specifier : String) : String :=
  let baseName := targetName.getD sourceBaseName
  match targetName with
  | some t => normalizeTargetName t
  | none => sanitizeSegment (if baseName = "" then specifier else baseName)

/-- A path character is filesystem-safe when it is in the sanitization class
or is the `/` separator used to rejoin segments. -/
def allowedPathChars (p : String) : Bool :=
  p.data.all (fun c => isAllowedChar c || c = '/')

/-- The `..` path segments of an emitted relative path. -/
def hasDotDotSegment (p : String) : Bool :=
  (splitSep (fun c => c = '/') p.data).contains ".."

/-! ### Specifier Resolver (src/index.ts lines 140-252)

The host primitives the resolver calls (`path.normalize`, `path.resolve`,
`path.isAbsolute`, `fileURLToPath`, `pathToFileURL`, `Bun.file(...).exists`,
`import.meta.resolve`, `process.cwd()`, and the entrypoint directories/URL
parents computed from the build config) are collaborators, modelled as an
explicit environment. -/

structure ResolveEnv where
  cwd : String
  entrypointDirs : List String
  entrypointUrlParents : List String
  normalize : String → String
  resolvePath : String → String → String
  isAbsolute : String → Bool
  fileURLToPath : String → Except String String
  pathToFileURL : String → String
  fsExists : String → Bool
  metaResolve : String → Option String → Except String String

structure Found where
  path : String
  url : String
deriving DecidableEq, Repr

/-- The per-asset mutable locals of the resolution chain (`attempted`,
`resolutionErrors`, `sourcePath`/`sourceUrl`), plus a ghost `candidates`
field recording every normalized path ever handed to `tryPath`, including
those skipped by the `attempted.includes` deduplication check. -/
structure ResolveState where
  attempted : List String
  errors : List String
  found : Option Found
  candidates : List String
deriving DecidableEq, Repr

def initState : ResolveState := ⟨[], [], none, []⟩

/-- `registerMatch` (lines 155-158). -/
def registerMatch (env : ResolveEnv) (st : ResolveState) (absolutePath : String)
    (url : Option String) : ResolveState :=
  let sourcePath := env.normalize absolutePath
  { st with found := some ⟨sourcePath, url.getD (env.pathToFileURL sourcePath)⟩ }

/-- `tryPath` (lines 160-172): normalize the candidate, skip it when already
attempted, otherwise record it and existence-test it. -/
def tryPath (env : ResolveEnv) (st : ResolveState) (candidatePath : String) :
    Bool × ResolveState :=
  let normalized := env.normalize candidatePath
  let st := { st with candidates := st.candidates ++ [normalized] }
  if st.attempted.contains normalized then (false, st)
  else
    let st := { st with attempted := st.attempted ++ [normalized] }
    if env.fsExists normalized then (true, registerMatch env st normalized none)
    else (false, st)

/-- `toFilePath` (lines 67-72). -/
def toFilePath (env : ResolveEnv) (resolved : String) : Except String String :=
  if strStartsWith resolved "file://" then env.fileURLToPath resolved
  else .ok (if env.isAbsolute resolved then resolved
            else env.resolvePath env.cwd resolved)

/-- `tryUrl` (lines 174-186): convert the URL to a path (recording conversion
failures as resolver errors), existence-test it, and on a match fix up
`sourceUrl` to the candidate URL when it was a `file://` URL. -/
def tryUrl (env : ResolveEnv) (st : ResolveState) (candidateUrl : String) :
    Bool × ResolveState :=
  match toFilePath env candidateUrl with
  | .error err => (false, { st with errors := st.errors ++ [err] })
  | .ok filePath =>
    let r := tryPath env st filePath
    if r.1 then
      match r.2.found with
      | some f =>
        (true, { r.2 with found := some ⟨f.path,
          if strStartsWith candidateUrl "file://" then candidateUrl
          else env.pathToFileURL f.path⟩ })
      | none => r
    else r

/-- `attemptImportMetaResolve` (lines 188-198). -/
def attemptIMR (env : ResolveEnv) (specifier : String) (st : ResolveState)
    (parentUrl : Option String) : Bool × ResolveState :=
  match env.metaResolve specifier parentUrl with
  | .error err => (false, { st with errors := st.errors ++ [err] })
  | .ok resolvedUrl => tryUrl env st resolvedUrl

/-- The `for (const dir of entrypointDirs)` loop (lines 209-213). -/
def tryDirs (env : ResolveEnv) (specifier : String) :
    List String → ResolveState → ResolveState
  | [], st => st
  | d :: rest, st =>
    let r := tryPath env st (env.resolvePath d specifier)
    if r.1 then r.2 else tryDirs env specifier rest r.2

/-- The `for (const parentUrl of entrypointUrlParents)` loop (lines 218-222). -/
def tryParents (env : ResolveEnv) (specifier : String) :
    List String → ResolveState → ResolveState
  | [], st => st
  | p :: rest, st =>
    let r := attemptIMR env specifier st (some p)
    if r.1 then r.2 else tryParents env specifier rest r.2

/-- Lines 200-204: the `file://` / absolute-path block. -/
def stage1 (env : ResolveEnv) (specifier : String) : ResolveState :=
  if strStartsWith specifier "file://" then (tryUrl env initState specifier).2
  else if env.isAbsolute specifier then (tryPath env initState specifier).2
  else initState

/-- Lines 206-215: the relative-specifier block (cwd, then entrypoint dirs). -/
def stage2 (env : ResolveEnv) (specifier : String) (st : ResolveState) :
    ResolveState :=
  if st.found.isNone &&
      (strStartsWith specifier "./" || strStartsWith specifier "../") then
    let st' := (tryPath env st (env.resolvePath env.cwd specifier)).2
    if st'.found.isNone then tryDirs env specifier env.entrypointDirs st' else st'
  else st

/-- Lines 217-223: `import.meta.resolve` with each entrypoint URL parent. -/
def stage3 (env : ResolveEnv) (specifier : String) (st : ResolveState) :
    ResolveState :=
  if st.found.isNone then tryParents env specifier env.entrypointUrlParents st
  else st

/-- Lines 225-227: `import.meta.resolve` with no parent context. -/
def stage4 (env : ResolveEnv) (specifier : String) (st : ResolveState) :
    ResolveState :=
  if st.found.isNone then (attemptIMR env specifier st none).2 else st

/-- Lines 229-231: the final cwd-relative test for non-URL, non-absolute
specifiers. -/
def stage5 (env : ResolveEnv) (specifier : String) (st : ResolveState) :
    ResolveState :=
  if st.found.isNone &&
      !(strStartsWith specifier "file://" || env.isAbsolute specifier) then
    (tryPath env st (env.resolvePath env.cwd specifier)).2
  else st

/-- The per-asset resolution chain (lines 200-231), stage by stage. -/
def resolveChain (env : ResolveEnv) (specifier : String) : ResolveState :=
  stage5 env specifier (stage4 env specifier (stage3 env specifier
    (stage2 env specifier (stage1 env specifier))))

/-- The diagnostic payload of the thrown `NotFound` error (lines 233-239). -/
structure NotFoundError where
  specifier : String
  attempted : List String
  errors : List String
deriving DecidableEq, Repr

/-- JS `array.join(', ')` / `array.join('; ')`. -/
def joinWith (sep : String) : List String → String
  | [] => ""
  | [s] => s
  | s :: rest => s ++ sep ++ joinWith sep rest

/-- The error message built at lines 234-237. -/
def notFoundMessage (e : NotFoundError) : String :=
  "bundleAssetsPlugin could not locate asset \"" ++ e.specifier ++ "\"." ++
    (if e.attempted.length > 0 then "\nChecked: " ++ joinWith ", " e.attempted else "") ++
    (if e.errors.length > 0 then "\nResolver errors: " ++ joinWith "; " e.errors else "")

/-- Whole-asset resolution: the chain's outcome, as the code surfaces it
(success with `sourcePath`/`sourceUrl`, or the thrown diagnostic error). -/
def resolveSpec (env : ResolveEnv) (specifier : String) :
    Except NotFoundError Found :=
  let st := resolveChain env specifier
  match st.found with
  | some f => .ok f
  | none => .error ⟨specifier, st.attempted, st.errors⟩

/-! ### Asset inputs and per-entry processing (lines 7-23, 146-148, 241-251) -/

inductive AssetInput where
  | str : String → AssetInput
  | obj : String → Option String → Option (List String) → AssetInput
deriving DecidableEq, Repr

/-- Line 147: `typeof entry === 'string' ? entry : entry.specifier`. -/
def specifierOf : AssetInput → String
  | .str s => s
  | .obj s _ _ => s

/-- Line 148: `typeof entry === 'string' ? undefined : entry.targetName`. -/
def targetNameOf : AssetInput → Option String
  | .str _ => none
  | .obj _ t _ => t

/-- Line 241: `typeof entry === 'string' ? [] : (entry.runtimeKeys ?? [])`. -/
def runtimeKeysOf : AssetInput → List String
  | .str _ => []
  | .obj _ _ k => k.getD []

structure ResolvedAsset where
  specifier : String
  sourcePath : String
  sourceUrl : String
  relativePath : String
  runtimeKeys : List String
deriving DecidableEq, Repr

/-- Processing of one entry of the `assets` array (lines 146-251); `basename`
stands for the host's `path.basename`. -/
def processEntry (env : ResolveEnv) (basename : String → String)
    (entry : AssetInput) : Except NotFoundError ResolvedAsset :=
  let specifier := specifierOf entry
  match resolveSpec env specifier with
  | .error e => .error e
  | .ok f =>
    let runtimeKeys := runtimeKeysOf entry
    .ok ⟨specifier, f.path, f.url,
      relativePathFor (targetNameOf entry) (basename f.path) specifier,
      runtimeKeys⟩

/-- JS `new Set(list)` iteration order: first occurrences, in order. -/
def dedupFirst (l : List String) : List String :=
  l.foldl (fun acc x => if acc.contains x then acc else acc ++ [x]) []

/-- JS `key.replace(/^\.\//, '')`. -/
def stripDotSlash (key : String) : String :=
  if strStartsWith key "./" then String.mk (key.data.drop 2) else key

/-- The `keys` array of one manifest entry (lines 288-303): the caller's
runtime keys, the two `$bunfs` sandbox variants of each `./`-key, then the
specifier, source path and source URL — `filter(Boolean)` and set-dedup. -/
def manifestKeys (asset : ResolvedAsset) : List String :=
  dedupFirst ((asset.runtimeKeys ++
    (asset.runtimeKeys.filter (fun k => strStartsWith k "./")).flatMap
      (fun k => let normalized := stripDotSlash k
        ["file:///$bunfs/root/" ++ normalized, "/$bunfs/root/" ++ normalized]) ++
    [asset.specifier, asset.sourcePath, asset.sourceUrl]).filter (fun s => s ≠ ""))

/-! ### Spec-level descriptions of the resolution strategy order (claim C2)

These definitions follow the wording of the specification, not the source:
they state the ordered strategy list declaratively (no attempt bookkeeping),
to be compared with `resolveChain` by refinement. -/

def orElseO (a b : Option String) : Option String :=
  match a with
  | some x => some x
  | none => b

/-- Spec wording: "test existence" of a candidate path; on success the
resolved source path is the host-normalized candidate. -/
def checkPathSpec (env : ResolveEnv) (c : String) : Option String :=
  let n := env.normalize c
  if env.fsExists n then some (env.normalize n) else none

/-- Spec wording: a URL is "converted to a path and existence-tested". -/
def urlCheckSpec (env : ResolveEnv) (u : String) : Option String :=
  match toFilePath env u with
  | .ok p => checkPathSpec env p
  | .error _ => none

/-- Spec wording: the host's module-resolution primitive attempted with one
parent context, its result existence-tested. -/
def oracleAtSpec (env : ResolveEnv) (specifier : String) (parent : Option String) :
    Option String :=
  match env.metaResolve specifier parent with
  | .ok u => urlCheckSpec env u
  | .error _ => none

/-- Spec wording: the primitive tried once per candidate directory as parent,
in order, then once with no parent. -/
def oracleSpec (env : ResolveEnv) (specifier : String) : Option String :=
  orElseO (env.entrypointUrlParents.findSome?
      (fun p => oracleAtSpec env specifier (some p)))
    (oracleAtSpec env specifier none)

/-- Spec wording: relative specifiers tested against the current working
directory, then each candidate directory in supplied order. -/
def relativeSpec (env : ResolveEnv) (specifier : String) : Option String :=
  orElseO (checkPathSpec env (env.resolvePath env.cwd specifier))
    (env.entrypointDirs.findSome?
      (fun d => checkPathSpec env (env.resolvePath d specifier)))

/-- The resolution order exactly as claim C2 states it: the module-resolution
primitive is attempted "only for bare specifiers (not URL, absolute, or
relative)". -/
def resolveSpecClaimed (env : ResolveEnv) (specifier : String) : Option String :=
  let isUrl := strStartsWith specifier "file://"
  let isAbs := env.isAbsolute specifier
  let isRel := strStartsWith specifier "./" || strStartsWith specifier "../"
  let s1 := if isUrl then urlCheckSpec env specifier
            else if isAbs then checkPathSpec env specifier
            else none
  let s2 := orElseO s1 (if isRel then relativeSpec env specifier else none)
  let s3 := orElseO s2
    (if !(isUrl || isAbs || isRel) then oracleSpec env specifier else none)
  orElseO s3
    (if !(isUrl || isAbs) then checkPathSpec env (env.resolvePath env.cwd specifier)
     else none)

/-- The amended resolution order: identical to `resolveSpecClaimed` except
that the module-resolution primitive is attempted for every specifier still
unresolved after the existence-test strategies, whatever its syntactic form. -/
def resolveSpecAmended (env : ResolveEnv) (specifier : String) : Option String :=
  let isUrl := strStartsWith specifier "file://"
  let isAbs := env.isAbsolute specifier
  let isRel := strStartsWith specifier "./" || strStartsWith specifier "../"
  let s1 := if isUrl then urlCheckSpec env specifier
            else if isAbs then checkPathSpec env specifier
            else none
  let s2 := orElseO s1 (if isRel then relativeSpec env specifier else none)
  let s3 := orElseO s2 (oracleSpec env specifier)
  orElseO s3
    (if !(isUrl || isAbs) then checkPathSpec env (env.resolvePath env.cwd specifier)
     else none)

/-- All recorded attempts are known misses (holds whenever nothing has been
found yet, because every hit stops the chain). -/
def attemptsFresh (env : ResolveEnv) (st : ResolveState) : Prop :=
  ∀ p ∈ st.attempted, env.fsExists p = false


/-! ### Simulation lemmas relating the stateful chain to the declarative
strategy order -/

/-! ### Concrete host environments for witnesses and counterexamples -/

/-- A small concrete host: identity normalization, string-concatenation path
resolution, leading-`/` absoluteness, `file://`-prefix URL conversion.  Only
`/pkg/a.txt` exists, and the module-resolution primitive resolves everything
to its URL. -/
def envRelOracle : ResolveEnv where
  cwd := "/cwd"
  entrypointDirs := ["/e"]
  entrypointUrlParents := ["file:///e/main.ts"]
  normalize := fun p => p
  resolvePath := fun b s => b ++ "/" ++ s
  isAbsolute := fun s => strStartsWith s "/"
  fileURLToPath := fun u =>
    if strStartsWith u "file://" then .ok (String.mk (u.data.drop 7))
    else .error "not a file url"
  pathToFileURL := fun p => "file://" ++ p
  fsExists := fun p => p = "/pkg/a.txt"
  metaResolve := fun _ _ => .ok "file:///pkg/a.txt"

/-- Concrete host in which only `/a.txt` exists and module resolution fails. -/
def envAbs : ResolveEnv where
  cwd := "/cwd"
  entrypointDirs := ["/e"]
  entrypointUrlParents := ["file:///e/main.ts"]
  normalize := fun p => p
  resolvePath := fun b s => b ++ "/" ++ s
  isAbsolute := fun s => strStartsWith s "/"
  fileURLToPath := fun u =>
    if strStartsWith u "file://" then .ok (String.mk (u.data.drop 7))
    else .error "not a file url"
  pathToFileURL := fun p => "file://" ++ p
  fsExists := fun p => p = "/a.txt"
  metaResolve := fun _ _ => .error "Cannot find module"

/-- Concrete host in which nothing exists and module resolution fails. -/
def envFail : ResolveEnv where
  cwd := "/cwd"
  entrypointDirs := ["/e"]
  entrypointUrlParents := ["file:///e/main.ts"]
  normalize := fun p => p
  resolvePath := fun b s => b ++ "/" ++ s
  isAbsolute := fun s => strStartsWith s "/"
  fileURLToPath := fun u =>
    if strStartsWith u "file://" then .ok (String.mk (u.data.drop 7))
    else .error "not a file url"
  pathToFileURL := fun p => "file://" ++ p
  fsExists := fun _ => false
  metaResolve := fun _ _ => .error "Cannot find module"

/-- The diagnostic payload produced when `./a.txt` fails to resolve in
`envFail`. -/
def failE : NotFoundError :=
  ⟨"./a.txt", ["/cwd/./a.txt", "/e/./a.txt"],
    ["Cannot find module", "Cannot find module"]⟩

/-- Bookkeeping invariant of the resolution chain: the `attempted` list is
duplicate-free and covers every candidate path ever handed to `tryPath`. -/
def recordInv (st : ResolveState) : Prop :=
  st.attempted.Nodup ∧ ∀ p ∈ st.candidates, p ∈ st.attempted

/-! ### Runtime override table (generated snippet, lines 340-589)

The injected startup block manipulates a process-global table
(`globalThis[globalKey]`, a null-prototype object).  JS objects preserve
insertion order and the snippet only ever inserts under a `hasOwn` guard or
assigns directly, so an association list models it exactly. -/

abbrev Table := List (String × String)

/-- `Object.prototype.hasOwnProperty.call(object, key)` (line 348). -/
def hasOwn (t : Table) (k : String) : Bool :=
  t.any (fun e => e.1 = k)

/-- JS property read `object[key]`. -/
def tableGet (t : Table) (k : String) : Option String :=
  (t.find? (fun e => e.1 = k)).map (fun e => e.2)

/-- `if (!hasOwn(overrides, variant)) overrides[variant] = value;`
(lines 374-376). -/
def insertIfAbsent (t : Table) (k v : String) : Table :=
  if hasOwn t k then t else t ++ [(k, v)]

/-- JS object assignment `target[key] = value` (line 439): overwrite in
place when present, append otherwise. -/
def setKey (t : Table) (k v : String) : Table :=
  if hasOwn t k then t.map (fun e => if e.1 = k then (k, v) else e)
  else t ++ [(k, v)]

/-- Host primitives available to the generated runtime snippet
(`node:path`, `node:url`, `import.meta.dir`).  `pathToFileURL` and
`fileURLToPath` may throw, which the snippet catches. -/
structure RuntimeEnv where
  runtimeDir : String
  resolvePath : String → String → String
  isAbsolute : String → Bool
  fileURLToPath : String → Except String String
  pathToFileURL : String → Except String String

/-- `addVariant` (lines 352-356): add a non-empty string to the variant set
(JS `Set` keeps first insertion order). -/
def addV (vs : List String) (c : String) : List String :=
  if c ≠ "" then (if vs.contains c then vs else vs ++ [c]) else vs

/-- `addVariant` applied to the result of a possibly-throwing conversion
(the snippet wraps those calls in `try { ... } catch { /* ignore */ }`). -/
def addVO (vs : List String) (c : Option String) : List String :=
  match c with
  | some s => addV vs s
  | none => vs

/-- JS `key.slice(2)`. -/
def sliceTwo (key : String) : String :=
  String.mk (key.data.drop 2)

/-- The variant set built by `registerKey` (lines 351-372): the key itself,
then per syntactic kind the equivalent key forms. -/
def keyVariants (env : RuntimeEnv) (key : String) : List String :=
  let variants := [key]
  if strStartsWith key "file://" then
    addVO variants (env.fileURLToPath key).toOption
  else if strStartsWith key "/$bunfs/root/" then
    addV variants ("file://" ++ key)
  else if env.isAbsolute key then
    addVO variants (env.pathToFileURL key).toOption
  else if strStartsWith key "./" || strStartsWith key "../" then
    let absoluteFromRuntime := env.resolvePath env.runtimeDir key
    let variants := addV variants absoluteFromRuntime
    let variants := addVO variants (env.pathToFileURL absoluteFromRuntime).toOption
    if strStartsWith key "./" then
      let trimmed := sliceTwo key
      addV (addV variants ("/$bunfs/root/" ++ trimmed))
        ("file:///$bunfs/root/" ++ trimmed)
    else variants
  else variants

/-- `registerKey` (lines 349-378): skip empty keys, then insert every
variant under the `hasOwn` guard (first write wins). -/
def registerKey (env : RuntimeEnv) (t : Table) (key value : String) : Table :=
  if key = "" then t
  else (keyVariants env key).foldl (fun t v => insertIfAbsent t v value) t

/-- `registerAll` (lines 379-385): the output path itself, its URL form
(conversion failure swallowed), then every manifest key. -/
def registerAll (env : RuntimeEnv) (t : Table) (keys : List String)
    (value : String) : Table :=
  let t := registerKey env t value value
  let t := match env.pathToFileURL value with
    | .ok u => registerKey env t u value
    | .error _ => t
  keys.foldl (fun t k => registerKey env t k value) t

/-- `findOverride` (lines 443-463): direct hit first, then one
equivalent-form lookup by key kind.  `table` is `globalThis[globalKey]`
(absent before any installation). -/
def findOverride (env : RuntimeEnv) (table : Option Table) (key : String) :
    Option String :=
  if key = "" then none
  else
    match table with
    | none => none
    | some t =>
      if hasOwn t key then tableGet t key
      else if strStartsWith key "file://" then
        match env.fileURLToPath key with
        | .ok fsPath => if hasOwn t fsPath then tableGet t fsPath else none
        | .error _ => none
      else if env.isAbsolute key then
        match env.pathToFileURL key with
        | .ok asUrl => if hasOwn t asUrl then tableGet t asUrl else none
        | .error _ => none
      else if strStartsWith key "/$bunfs/root/" then
        let asUrl := "file://" ++ key
        if hasOwn t asUrl then tableGet t asUrl else none
      else none

/-- `applyOverride` (lines 464-472). -/
def applyOverride (env : RuntimeEnv) (table : Option Table)
    (specifier resolved : String) : String :=
  match findOverride env table specifier with
  | some bySpecifier => bySpecifier
  | none =>
    match findOverride env table resolved with
    | some byResolved => byResolved
    | none => resolved

/-- The patched `Bun.resolveSync` (lines 481-496).  `original` is the bound
original resolver; a thrown error is its `.error` value. -/
def patchedResolveSync (env : RuntimeEnv) (table : Option Table)
    (original : String → Except String String) (specifier : String) :
    Except String String :=
  match findOverride env table specifier with
  | some direct => .ok direct
  | none =>
    match original specifier with
    | .ok result => .ok (applyOverride env table specifier result)
    | .error err =>
      match findOverride env table specifier with
      | some fallback => .ok fallback
      | none => .error err

/-- The patched `Bun.resolve` (lines 504-528); the promise layer is erased,
so the synchronous-throw and promise-rejection paths coincide. -/
def patchedResolveAsync (env : RuntimeEnv) (table : Option Table)
    (original : String → Except String String) (specifier : String) :
    Except String String :=
  match findOverride env table specifier with
  | some direct => .ok direct
  | none =>
    match original specifier with
    | .ok result => .ok (applyOverride env table specifier result)
    | .error err =>
      match findOverride env table specifier with
      | some fallback => .ok fallback
      | none => .error err

/-- The patched `import.meta.resolve` (lines 536-560); same shape. -/
def patchedMetaResolve (env : RuntimeEnv) (table : Option Table)
    (original : String → Except String String) (specifier : String) :
    Except String String :=
  match findOverride env table specifier with
  | some direct => .ok direct
  | none =>
    match original specifier with
    | .ok result => .ok (applyOverride env table specifier result)
    | .error err =>
      match findOverride env table specifier with
      | some fallback => .ok fallback
      | none => .error err

/-! ### Install state machine (lines 436-441, 473-575) -/

/-- One patchable resolution entry point: how many wrapper layers sit on it
and whether the current function carries the `__bundleAssetsPatched`
marker. -/
structure Slot where
  wraps : Nat
  marker : Bool
deriving DecidableEq, Repr

def originalSlot : Slot := ⟨0, false⟩

/-- One `if (... && !fn.__bundleAssetsPatched) { Bun.x = patched }` block:
wrap once and set the marker, unless the marker is already present. -/
def patchSlot (s : Slot) : Slot :=
  if s.marker then s else ⟨s.wraps + 1, true⟩

/-- Process-global runtime state touched by the injected block. -/
structure ProcState where
  resolversInstalled : Bool
  resolveSyncSlot : Slot
  resolveAsyncSlot : Slot
  metaResolveSlot : Slot
  globalTable : Option Table
deriving DecidableEq, Repr

def freshProc : ProcState := ⟨false, originalSlot, originalSlot, originalSlot, none⟩

/-- `installResolvers` (lines 473-575): no-op when the process-global flag
is set; otherwise patch each unmarked entry point and set the flag. -/
def installResolvers (p : ProcState) : ProcState :=
  if p.resolversInstalled then p
  else
    { p with
      resolveSyncSlot := patchSlot p.resolveSyncSlot,
      resolveAsyncSlot := patchSlot p.resolveAsyncSlot,
      metaResolveSlot := patchSlot p.metaResolveSlot,
      resolversInstalled := true }

/-- The global-table merge (lines 436-441): reuse the existing object when
present (else a fresh one) and assign every override key into it. -/
def mergeIntoGlobal (current : Option Table) (overrides : Table) : Table :=
  let target := match current with
    | some t => t
    | none => []
  overrides.foldl (fun t e => setKey t e.1 e.2) target

def mergeGlobalTable (p : ProcState) (overrides : Table) : ProcState :=
  { p with globalTable := some (mergeIntoGlobal p.globalTable overrides) }

/-- One injected block's effect on the process-global state: merge the
block's overrides (lines 436-441), then `installResolvers()` (line 575). -/
def runInjectedBlock (p : ProcState) (overrides : Table) : ProcState :=
  installResolvers (mergeGlobalTable p overrides)

/-! ### Embed-mode extraction (generated snippet, lines 387-428)

Filesystem effects are modelled over an abstract state `σ`.  A fallible
operation returns `Except σ σ`: on failure the error carries the state at
throw time, so `try { ... } catch { /* ignore */ }` resumes from it.
`fs.existsSync` never throws (Node swallows errors there), so it is a pure
predicate. -/

structure EncodedAsset where
  specifier : String
  relativePath : String
  data : String
  keys : List String
deriving DecidableEq, Repr

structure ExtractEnv (σ : Type) where
  existsSync : σ → String → Bool
  mkdirSync : σ → String → Except σ σ
  writeFileSync : σ → String → String → Except σ σ
  dirname : String → String
  joinPath : String → List String → String
  urlPathname : String → Option String
  decodeBase64 : String → String

/-- `try { body } catch (err) { /* ignore */ }`. -/
def catchIgnore {σ : Type} (body : Except σ σ) : Except σ σ :=
  match body with
  | .ok s => .ok s
  | .error s => .ok s

/-- Lines 394-396: create the cache directory if missing, swallowing
failure. -/
def ensureCacheDir {σ : Type} (env : ExtractEnv σ) (s : σ) (cacheDir : String) :
    Except σ σ :=
  catchIgnore (if env.existsSync s cacheDir then .ok s else env.mkdirSync s cacheDir)

/-- Lines 400-405: write one asset file if missing; directory creation and
file write are each individually swallowed. -/
def writeAssetFile {σ : Type} (env : ExtractEnv σ) (s : σ)
    (outputPath buffer : String) : Except σ σ :=
  if env.existsSync s outputPath then .ok s
  else
    catchIgnore (env.mkdirSync s (env.dirname outputPath)) >>= fun s1 =>
    catchIgnore (env.writeFileSync s1 outputPath buffer)

/-- Lines 408-414: the `$bunfs` URL derived from a manifest key. -/
def bunfsUrlOf (key : String) : Option String :=
  if strStartsWith key "file:///$bunfs/root/" then some key
  else if strStartsWith key "/$bunfs/root/" then some ("file://" ++ key)
  else none

/-- Lines 406-422: best-effort materialization under the `$bunfs` sandbox
path for one key; the whole URL-parse/mkdir/write sequence sits in one
`try`, ignored on failure. -/
def extractBunfsKey {σ : Type} (env : ExtractEnv σ) (buffer : String) (s : σ)
    (key : String) : Except σ σ :=
  match bunfsUrlOf key with
  | none => .ok s
  | some bunfsUrl =>
    catchIgnore
      (match env.urlPathname bunfsUrl with
       | none => .error s
       | some bunfsPath =>
         if env.existsSync s bunfsPath then .ok s
         else
           env.mkdirSync s (env.dirname bunfsPath) >>= fun s1 =>
           env.writeFileSync s1 bunfsPath buffer)

/-- One iteration of the `for (const asset of encoded)` loop
(lines 397-424), filesystem effects only. -/
def extractOneAsset {σ : Type} (env : ExtractEnv σ) (s : σ)
    (outputPath buffer : String) (keys : List String) : Except σ σ :=
  writeAssetFile env s outputPath buffer >>= fun s1 =>
  keys.foldlM (fun s key => extractBunfsKey env buffer s key) s1

/-- The embed-mode startup extraction block (lines 394-428): ensure the
cache directory, then per encoded asset extract its bytes and register its
keys in the override table. -/
def extractBlock {σ : Type} (env : ExtractEnv σ) (renv : RuntimeEnv)
    (cacheDir : String) (s : σ) (encoded : List EncodedAsset) (t : Table) :
    Except σ (σ × Table) :=
  ensureCacheDir env s cacheDir >>= fun s0 =>
  encoded.foldlM (fun (acc : σ × Table) asset =>
    let outputPath := env.joinPath cacheDir
      (splitSep (fun c => c = '/') asset.relativePath.data)
    let buffer := env.decodeBase64 asset.data
    (extractOneAsset env acc.1 outputPath buffer asset.keys).map (fun s' =>
      (s', registerAll renv acc.2 asset.keys outputPath))) (s0, t)

/-- A concrete runtime host for witnesses: string-concatenation path
resolution under runtime directory `/rt`. -/
def envRT : RuntimeEnv where
  runtimeDir := "/rt"
  resolvePath := fun b s => b ++ "/" ++ s
  isAbsolute := fun s => strStartsWith s "/"
  fileURLToPath := fun u =>
    if strStartsWith u "file://" then .ok (String.mk (u.data.drop 7))
    else .error "not a file url"
  pathToFileURL := fun p => .ok ("file://" ++ p)

/-! ### Sanitization lemmas (claim C1) -/

lemma sanitizeSegment_chars (value : String) :
    ∀ c ∈ (sanitizeSegment value).data, isAllowedChar c = true := by
  intro c hc
  simp only [sanitizeSegment, List.mem_map] at hc
  obtain ⟨a, _, ha⟩ := hc
  subst ha
  by_cases h : isAllowedChar a = true
  · simp [h]
  · simp only [h, if_false, Bool.false_eq_true]
    decide

lemma data_append (s t : String) : (s ++ t).data = s.data ++ t.data := by
  cases s; cases t; rfl

lemma joinSlash_chars (l : List String)
    (h : ∀ s ∈ l, ∀ c ∈ s.data, isAllowedChar c = true) :
    ∀ c ∈ (joinSlash l).data, (isAllowedChar c || c = '/') = true := by
  induction l with
  | nil => intro c hc; simp [joinSlash] at hc
  | cons s rest ih =>
    intro c hc
    cases rest with
    | nil =>
      have := h s (by simp) c (by simpa [joinSlash] using hc)
      simp [this]
    | cons t tail =>
      simp only [joinSlash] at hc
      rw [data_append, data_append] at hc
      rcases List.mem_append.mp hc with h1 | h2
      · rcases List.mem_append.mp h1 with ha | hb
        · have := h s (by simp) c ha
          simp [this]
        · have : c = '/' := by simpa using hb
          simp [this]
      · exact ih (fun u hu => h u (List.mem_cons_of_mem _ hu)) c h2

lemma sanitized_allowedPathChars (value : String) :
    allowedPathChars (sanitizeSegment value) = true := by
  simp only [allowedPathChars, List.all_eq_true]
  intro c hc
  simp [sanitizeSegment_chars value c hc]

lemma normalizeTargetName_chars (value : String) :
    allowedPathChars (normalizeTargetName value) = true := by
  unfold normalizeTargetName
  by_cases h : (splitNonEmpty isPathSep value).isEmpty
  · simp [h, sanitized_allowedPathChars]
  · simp only [h, if_false, Bool.false_eq_true]
    simp only [allowedPathChars, List.all_eq_true]
    intro c hc
    exact joinSlash_chars _ (by
      intro s hs
      rcases List.mem_map.mp hs with ⟨a, _, ha⟩
      exact ha ▸ sanitizeSegment_chars a) c hc


lemma orElseO_some (x : String) (b : Option String) : orElseO (some x) b = some x := rfl

lemma orElseO_none (b : Option String) : orElseO none b = b := rfl

lemma tryPath_sim (env : ResolveEnv) (st : ResolveState) (c : String)
    (hF : st.found = none) (hA : attemptsFresh env st) :
    (tryPath env st c).1 = env.fsExists (env.normalize c) ∧
    (tryPath env st c).2.found.map Found.path = checkPathSpec env c ∧
    (env.fsExists (env.normalize c) = false →
      (tryPath env st c).2.found = none ∧ attemptsFresh env (tryPath env st c).2) := by
  unfold tryPath attemptsFresh
  by_cases hc : st.attempted.contains (env.normalize c)
  · have hmem : env.normalize c ∈ st.attempted := by simpa using hc
    have hex : env.fsExists (env.normalize c) = false := hA _ hmem
    simp only [hc, if_true, hex, hF, checkPathSpec]
    refine ⟨by simp, by simp, fun _ => ⟨by simp, fun p hp => hA p hp⟩⟩
  · by_cases hex : env.fsExists (env.normalize c)
    · simp only [hc, if_false, hex, if_true, Bool.false_eq_true]
      refine ⟨by simp [hex], ?_, by simp [hex]⟩
      simp [registerMatch, checkPathSpec, hex]
    · have hex' : env.fsExists (env.normalize c) = false := by simpa using hex
      simp only [hc, if_false, hex', Bool.false_eq_true]
      refine ⟨by simp, by simp [hF, checkPathSpec, hex'],
        fun _ => ⟨by simp [hF], ?_⟩⟩
      intro p hp
      simp only [List.mem_append, List.mem_singleton] at hp
      rcases hp with h1 | h2
      · exact hA p h1
      · exact h2 ▸ hex'

lemma tryUrl_sim (env : ResolveEnv) (st : ResolveState) (u : String)
    (hF : st.found = none) (hA : attemptsFresh env st) :
    (tryUrl env st u).1 = (urlCheckSpec env u).isSome ∧
    (tryUrl env st u).2.found.map Found.path = urlCheckSpec env u ∧
    ((tryUrl env st u).2.found = none →
      (tryUrl env st u).1 = false ∧ attemptsFresh env (tryUrl env st u).2) := by
  unfold tryUrl urlCheckSpec
  cases htf : toFilePath env u with
  | error e =>
    exact ⟨by simp, by simp [hF], fun _ => ⟨by simp, fun p hp => hA p hp⟩⟩
  | ok q =>
    obtain ⟨h1, h2, h3⟩ := tryPath_sim env st q hF hA
    by_cases hr : (tryPath env st q).1
    · have hexq : env.fsExists (env.normalize q) = true := h1 ▸ hr
      have hsome : checkPathSpec env q = some (env.normalize (env.normalize q)) := by
        simp [checkPathSpec, hexq]
      cases hfo : (tryPath env st q).2.found with
      | none => rw [hfo] at h2; rw [hsome] at h2; simp at h2
      | some f =>
        have hfp : f.path = env.normalize (env.normalize q) := by
          rw [hfo, hsome] at h2; simpa using h2
        simp only [hr, if_true, hfo]
        refine ⟨by simp [hsome], by simp [hfp, hsome], by simp⟩
    · have hrf : (tryPath env st q).1 = false := by simpa using hr
      have hexq : env.fsExists (env.normalize q) = false := by rw [← h1, hrf]
      obtain ⟨hFn, hAn⟩ := h3 hexq
      have hnone : checkPathSpec env q = none := by simp [checkPathSpec, hexq]
      simp only [hrf, if_false, Bool.false_eq_true]
      exact ⟨by simp [hnone], by simp [hFn, hnone], fun _ => ⟨by simp, hAn⟩⟩

lemma attemptIMR_sim (env : ResolveEnv) (specifier : String) (st : ResolveState)
    (parent : Option String) (hF : st.found = none) (hA : attemptsFresh env st) :
    (attemptIMR env specifier st parent).1 = (oracleAtSpec env specifier parent).isSome ∧
    (attemptIMR env specifier st parent).2.found.map Found.path =
      oracleAtSpec env specifier parent ∧
    ((attemptIMR env specifier st parent).2.found = none →
      (attemptIMR env specifier st parent).1 = false ∧
      attemptsFresh env (attemptIMR env specifier st parent).2) := by
  unfold attemptIMR oracleAtSpec
  cases env.metaResolve specifier parent with
  | error e =>
    exact ⟨by simp, by simp [hF], fun _ => ⟨by simp, fun p hp => hA p hp⟩⟩
  | ok u => exact tryUrl_sim env st u hF hA

lemma tryDirs_sim (env : ResolveEnv) (specifier : String) :
    ∀ (dirs : List String) (st : ResolveState), st.found = none →
    attemptsFresh env st →
    (tryDirs env specifier dirs st).found.map Found.path =
      dirs.findSome? (fun d => checkPathSpec env (env.resolvePath d specifier)) ∧
    ((tryDirs env specifier dirs st).found = none →
      attemptsFresh env (tryDirs env specifier dirs st))
  | [], st, hF, hA => by
    simp only [tryDirs, List.findSome?_nil]
    exact ⟨by simp [hF], fun _ => hA⟩
  | d :: rest, st, hF, hA => by
    obtain ⟨h1, h2, h3⟩ := tryPath_sim env st (env.resolvePath d specifier) hF hA
    unfold tryDirs
    by_cases hr : (tryPath env st (env.resolvePath d specifier)).1
    · have hexd : env.fsExists (env.normalize (env.resolvePath d specifier)) = true :=
        h1 ▸ hr
      have hsome : checkPathSpec env (env.resolvePath d specifier) =
          some (env.normalize (env.normalize (env.resolvePath d specifier))) := by
        simp [checkPathSpec, hexd]
      simp only [hr, if_true, List.findSome?_cons, hsome]
      refine ⟨by rw [h2, hsome], fun hn => ?_⟩
      rw [hn] at h2; rw [hsome] at h2; simp at h2
    · have hrf : (tryPath env st (env.resolvePath d specifier)).1 = false := by
        simpa using hr
      have hexd : env.fsExists (env.normalize (env.resolvePath d specifier)) = false := by
        rw [← h1, hrf]
      obtain ⟨hFn, hAn⟩ := h3 hexd
      have hnone : checkPathSpec env (env.resolvePath d specifier) = none := by
        simp [checkPathSpec, hexd]
      obtain ⟨ih1, ih2⟩ := tryDirs_sim env specifier rest
        (tryPath env st (env.resolvePath d specifier)).2 hFn hAn
      simp only [hrf, if_false, List.findSome?_cons, hnone, Bool.false_eq_true]
      exact ⟨ih1, ih2⟩

lemma tryParents_sim (env : ResolveEnv) (specifier : String) :
    ∀ (parents : List String) (st : ResolveState), st.found = none →
    attemptsFresh env st →
    (tryParents env specifier parents st).found.map Found.path =
      parents.findSome? (fun p => oracleAtSpec env specifier (some p)) ∧
    ((tryParents env specifier parents st).found = none →
      attemptsFresh env (tryParents env specifier parents st))
  | [], st, hF, hA => by
    simp only [tryParents, List.findSome?_nil]
    exact ⟨by simp [hF], fun _ => hA⟩
  | p :: rest, st, hF, hA => by
    obtain ⟨h1, h2, h3⟩ := attemptIMR_sim env specifier st (some p) hF hA
    unfold tryParents
    by_cases hr : (attemptIMR env specifier st (some p)).1
    · have hsome : (oracleAtSpec env specifier (some p)).isSome = true := h1 ▸ hr
      obtain ⟨v, hv⟩ := Option.isSome_iff_exists.mp hsome
      simp only [hr, if_true, List.findSome?_cons, hv]
      refine ⟨by rw [h2, hv], fun hn => ?_⟩
      rw [hn] at h2; rw [hv] at h2; simp at h2
    · have hrf : (attemptIMR env specifier st (some p)).1 = false := by simpa using hr
      have hnone : oracleAtSpec env specifier (some p) = none := by
        cases ho : oracleAtSpec env specifier (some p) with
        | none => rfl
        | some v =>
          rw [ho] at h1
          rw [hrf] at h1
          simp at h1
      have hFn : (attemptIMR env specifier st (some p)).2.found = none := by
        cases hfo : (attemptIMR env specifier st (some p)).2.found with
        | none => rfl
        | some f => rw [hfo, hnone] at h2; simp at h2
      obtain ⟨-, hAn⟩ := h3 hFn
      obtain ⟨ih1, ih2⟩ := tryParents_sim env specifier rest
        (attemptIMR env specifier st (some p)).2 hFn hAn
      simp only [hrf, if_false, List.findSome?_cons, hnone, Bool.false_eq_true]
      exact ⟨ih1, ih2⟩

lemma checkPathSpec_none_iff (env : ResolveEnv) (c : String) :
    checkPathSpec env c = none ↔ env.fsExists (env.normalize c) = false := by
  unfold checkPathSpec
  by_cases h : env.fsExists (env.normalize c) <;> simp [h]

lemma found_map_none (st : ResolveState) :
    st.found.map Found.path = none ↔ st.found = none := by
  cases st.found <;> simp

lemma initState_fresh (env : ResolveEnv) : attemptsFresh env initState := by
  intro p hp
  simp [initState] at hp

lemma stage1_sim (env : ResolveEnv) (specifier : String) :
    (stage1 env specifier).found.map Found.path =
      (if strStartsWith specifier "file://" then urlCheckSpec env specifier
       else if env.isAbsolute specifier then checkPathSpec env specifier
       else none) ∧
    ((stage1 env specifier).found = none → attemptsFresh env (stage1 env specifier)) := by
  unfold stage1
  by_cases hu : strStartsWith specifier "file://"
  · obtain ⟨h1, h2, h3⟩ := tryUrl_sim env initState specifier rfl (initState_fresh env)
    simp only [hu, if_true]
    exact ⟨h2, fun hn => (h3 hn).2⟩
  · by_cases ha : env.isAbsolute specifier
    · obtain ⟨h1, h2, h3⟩ := tryPath_sim env initState specifier rfl (initState_fresh env)
      simp only [hu, ha, if_false, if_true, Bool.false_eq_true]
      refine ⟨h2, fun hn => ?_⟩
      have hcn : checkPathSpec env specifier = none := by rw [← h2, hn]; rfl
      exact (h3 ((checkPathSpec_none_iff env specifier).mp hcn)).2
    · simp only [hu, ha, if_false, Bool.false_eq_true]
      exact ⟨by simp [initState], fun _ => initState_fresh env⟩

lemma stage2_some (env : ResolveEnv) (specifier : String) (st : ResolveState)
    (f : Found) (hf : st.found = some f) : stage2 env specifier st = st := by
  simp [stage2, hf]

lemma stage2_none_sim (env : ResolveEnv) (specifier : String) (st : ResolveState)
    (hF : st.found = none) (hA : attemptsFresh env st) :
    (stage2 env specifier st).found.map Found.path =
      (if strStartsWith specifier "./" || strStartsWith specifier "../" then
        relativeSpec env specifier
       else none) ∧
    ((stage2 env specifier st).found = none →
      attemptsFresh env (stage2 env specifier st)) := by
  unfold stage2
  by_cases hrel : (strStartsWith specifier "./" || strStartsWith specifier "../") = true
  · simp only [hF, Option.isNone_none, hrel, Bool.and_self, if_true]
    obtain ⟨h1, h2, h3⟩ := tryPath_sim env st (env.resolvePath env.cwd specifier) hF hA
    by_cases hex : env.fsExists (env.normalize (env.resolvePath env.cwd specifier))
    · have hsome : checkPathSpec env (env.resolvePath env.cwd specifier) =
          some (env.normalize (env.normalize (env.resolvePath env.cwd specifier))) := by
        simp [checkPathSpec, hex]
      cases hfo : (tryPath env st (env.resolvePath env.cwd specifier)).2.found with
      | none => rw [hfo, hsome] at h2; simp at h2
      | some f =>
        simp only [hfo, Option.isNone_some, if_false, Bool.false_eq_true]
        refine ⟨?_, fun hn => absurd hn (by simp)⟩
        rw [← hfo, h2, hsome, relativeSpec, hsome, orElseO_some]
    · have hex' : env.fsExists (env.normalize (env.resolvePath env.cwd specifier)) = false := by
        simpa using hex
      obtain ⟨hFn, hAn⟩ := h3 hex'
      have hnone : checkPathSpec env (env.resolvePath env.cwd specifier) = none := by
        simp [checkPathSpec, hex']
      obtain ⟨ih1, ih2⟩ := tryDirs_sim env specifier env.entrypointDirs
        (tryPath env st (env.resolvePath env.cwd specifier)).2 hFn hAn
      simp only [hFn, Option.isNone_none, if_true]
      exact ⟨by rw [ih1, relativeSpec, hnone, orElseO_none], ih2⟩
  · have hrel' : (strStartsWith specifier "./" || strStartsWith specifier "../") = false := by
      simpa using hrel
    simp only [hrel', Bool.and_false, if_false, Bool.false_eq_true]
    exact ⟨by simp [hF], fun _ => hA⟩

lemma stage3_some (env : ResolveEnv) (specifier : String) (st : ResolveState)
    (f : Found) (hf : st.found = some f) : stage3 env specifier st = st := by
  simp [stage3, hf]

lemma stage3_none_sim (env : ResolveEnv) (specifier : String) (st : ResolveState)
    (hF : st.found = none) (hA : attemptsFresh env st) :
    (stage3 env specifier st).found.map Found.path =
      env.entrypointUrlParents.findSome?
        (fun p => oracleAtSpec env specifier (some p)) ∧
    ((stage3 env specifier st).found = none →
      attemptsFresh env (stage3 env specifier st)) := by
  unfold stage3
  simp only [hF, Option.isNone_none, if_true]
  exact tryParents_sim env specifier env.entrypointUrlParents st hF hA

lemma stage4_some (env : ResolveEnv) (specifier : String) (st : ResolveState)
    (f : Found) (hf : st.found = some f) : stage4 env specifier st = st := by
  simp [stage4, hf]

lemma stage4_none_sim (env : ResolveEnv) (specifier : String) (st : ResolveState)
    (hF : st.found = none) (hA : attemptsFresh env st) :
    (stage4 env specifier st).found.map Found.path =
      oracleAtSpec env specifier none ∧
    ((stage4 env specifier st).found = none →
      attemptsFresh env (stage4 env specifier st)) := by
  unfold stage4
  simp only [hF, Option.isNone_none, if_true]
  obtain ⟨h1, h2, h3⟩ := attemptIMR_sim env specifier st none hF hA
  exact ⟨h2, fun hn => (h3 hn).2⟩

lemma stage5_some (env : ResolveEnv) (specifier : String) (st : ResolveState)
    (f : Found) (hf : st.found = some f) : stage5 env specifier st = st := by
  simp [stage5, hf]

lemma stage5_none_sim (env : ResolveEnv) (specifier : String) (st : ResolveState)
    (hF : st.found = none) (hA : attemptsFresh env st) :
    (stage5 env specifier st).found.map Found.path =
      (if !(strStartsWith specifier "file://" || env.isAbsolute specifier) then
        checkPathSpec env (env.resolvePath env.cwd specifier)
       else none) := by
  unfold stage5
  by_cases hg : (strStartsWith specifier "file://" || env.isAbsolute specifier) = true
  · simp [hF, hg]
  · have hg' : (strStartsWith specifier "file://" || env.isAbsolute specifier) = false := by
      simpa using hg
    obtain ⟨h1, h2, h3⟩ := tryPath_sim env st (env.resolvePath env.cwd specifier) hF hA
    simp only [hF, Option.isNone_none, hg', Bool.not_false, Bool.and_self, if_true]
    exact h2

/-- C2 (amended): the resolution chain realizes the declarative ordered
strategy list in which the module-resolution primitive is attempted for every
still-unresolved specifier. -/
theorem c2_resolver_strategy_order (env : ResolveEnv) (specifier : String) :
    (resolveChain env specifier).found.map Found.path =
      resolveSpecAmended env specifier := by
  unfold resolveChain
  simp only [resolveSpecAmended]
  obtain ⟨g1, g1f⟩ := stage1_sim env specifier
  cases h1 : (stage1 env specifier).found with
  | some f =>
    rw [h1] at g1
    simp only [Option.map_some'] at g1
    rw [stage2_some env specifier _ f h1, stage3_some env specifier _ f h1,
      stage4_some env specifier _ f h1, stage5_some env specifier _ f h1, h1,
      Option.map_some', ← g1, orElseO_some, orElseO_some, orElseO_some]
  | none =>
    rw [h1] at g1
    simp only [Option.map_none'] at g1
    have hA1 := g1f h1
    rw [← g1, orElseO_none]
    obtain ⟨g2, g2f⟩ := stage2_none_sim env specifier _ h1 hA1
    cases h2 : (stage2 env specifier (stage1 env specifier)).found with
    | some f =>
      rw [h2] at g2
      simp only [Option.map_some'] at g2
      rw [stage3_some env specifier _ f h2, stage4_some env specifier _ f h2,
        stage5_some env specifier _ f h2, h2, Option.map_some', ← g2,
        orElseO_some, orElseO_some]
    | none =>
      rw [h2] at g2
      simp only [Option.map_none'] at g2
      have hA2 := g2f h2
      rw [← g2, orElseO_none]
      obtain ⟨g3, g3f⟩ := stage3_none_sim env specifier _ h2 hA2
      cases h3 : (stage3 env specifier
          (stage2 env specifier (stage1 env specifier))).found with
      | some f =>
        rw [h3] at g3
        simp only [Option.map_some'] at g3
        rw [stage4_some env specifier _ f h3, stage5_some env specifier _ f h3,
          h3, Option.map_some', oracleSpec, ← g3, orElseO_some, orElseO_some]
      | none =>
        rw [h3] at g3
        simp only [Option.map_none'] at g3
        have hA3 := g3f h3
        rw [oracleSpec, ← g3, orElseO_none]
        obtain ⟨g4, g4f⟩ := stage4_none_sim env specifier _ h3 hA3
        cases h4 : (stage4 env specifier (stage3 env specifier
            (stage2 env specifier (stage1 env specifier)))).found with
        | some f =>
          rw [h4] at g4
          simp only [Option.map_some'] at g4
          rw [stage5_some env specifier _ f h4, h4, Option.map_some', ← g4,
            orElseO_some]
        | none =>
          rw [h4] at g4
          simp only [Option.map_none'] at g4
          have hA4 := g4f h4
          rw [← g4, orElseO_none]
          exact stage5_none_sim env specifier _ h4 hA4

/-! ### Attempt-bookkeeping lemmas (claim C7) -/

lemma recordInv_setFound (st : ResolveState) (o : Option Found)
    (h : recordInv st) : recordInv { st with found := o } := h

lemma recordInv_addError (st : ResolveState) (e : String)
    (h : recordInv st) : recordInv { st with errors := st.errors ++ [e] } := h

lemma tryPath_recordInv (env : ResolveEnv) (st : ResolveState) (c : String)
    (h : recordInv st) : recordInv (tryPath env st c).2 := by
  obtain ⟨hN, hC⟩ := h
  unfold tryPath recordInv
  by_cases hc : st.attempted.contains (env.normalize c)
  · have hmem : env.normalize c ∈ st.attempted := by simpa using hc
    simp only [hc, if_true]
    refine ⟨hN, fun p hp => ?_⟩
    rcases List.mem_append.mp hp with h1 | h2
    · exact hC p h1
    · simp only [List.mem_singleton] at h2
      exact h2 ▸ hmem
  · have hnmem : env.normalize c ∉ st.attempted := by simpa using hc
    have hnodup : (st.attempted ++ [env.normalize c]).Nodup := by
      simp [List.nodup_append, hN, hnmem]
    have hcov : ∀ p ∈ st.candidates ++ [env.normalize c],
        p ∈ st.attempted ++ [env.normalize c] := by
      intro p hp
      rcases List.mem_append.mp hp with h1 | h2
      · exact List.mem_append.mpr (Or.inl (hC p h1))
      · exact List.mem_append.mpr (Or.inr h2)
    by_cases hex : env.fsExists (env.normalize c)
    · simp only [hc, if_false, hex, if_true, Bool.false_eq_true, registerMatch]
      exact ⟨hnodup, hcov⟩
    · have hex' : env.fsExists (env.normalize c) = false := by simpa using hex
      simp only [hc, if_false, hex', Bool.false_eq_true]
      exact ⟨hnodup, hcov⟩

lemma tryUrl_recordInv (env : ResolveEnv) (st : ResolveState) (u : String)
    (h : recordInv st) : recordInv (tryUrl env st u).2 := by
  unfold tryUrl
  cases toFilePath env u with
  | error e => exact recordInv_addError st e h
  | ok q =>
    have hq := tryPath_recordInv env st q h
    by_cases hr : (tryPath env st q).1
    · cases hfo : (tryPath env st q).2.found with
      | none => simp only [hr, if_true, hfo]; exact hq
      | some f => simp only [hr, if_true, hfo]; exact recordInv_setFound _ _ hq
    · have hrf : (tryPath env st q).1 = false := by simpa using hr
      simp only [hrf, if_false, Bool.false_eq_true]
      exact hq

lemma attemptIMR_recordInv (env : ResolveEnv) (specifier : String)
    (st : ResolveState) (parent : Option String) (h : recordInv st) :
    recordInv (attemptIMR env specifier st parent).2 := by
  unfold attemptIMR
  cases env.metaResolve specifier parent with
  | error e => exact recordInv_addError st e h
  | ok u => exact tryUrl_recordInv env st u h

lemma tryDirs_recordInv (env : ResolveEnv) (specifier : String) :
    ∀ (dirs : List String) (st : ResolveState), recordInv st →
    recordInv (tryDirs env specifier dirs st)
  | [], st, h => h
  | d :: rest, st, h => by
    have h' := tryPath_recordInv env st (env.resolvePath d specifier) h
    unfold tryDirs
    by_cases hr : (tryPath env st (env.resolvePath d specifier)).1
    · simp only [hr, if_true]; exact h'
    · have hrf : (tryPath env st (env.resolvePath d specifier)).1 = false := by
        simpa using hr
      simp only [hrf, if_false, Bool.false_eq_true]
      exact tryDirs_recordInv env specifier rest _ h'

lemma tryParents_recordInv (env : ResolveEnv) (specifier : String) :
    ∀ (parents : List String) (st : ResolveState), recordInv st →
    recordInv (tryParents env specifier parents st)
  | [], st, h => h
  | p :: rest, st, h => by
    have h' := attemptIMR_recordInv env specifier st (some p) h
    unfold tryParents
    by_cases hr : (attemptIMR env specifier st (some p)).1
    · simp only [hr, if_true]; exact h'
    · have hrf : (attemptIMR env specifier st (some p)).1 = false := by simpa using hr
      simp only [hrf, if_false, Bool.false_eq_true]
      exact tryParents_recordInv env specifier rest _ h'

lemma resolveChain_recordInv (env : ResolveEnv) (specifier : String) :
    recordInv (resolveChain env specifier) := by
  have h0 : recordInv initState := ⟨List.nodup_nil, by simp [initState]⟩
  have h1 : recordInv (stage1 env specifier) := by
    unfold stage1
    by_cases hu : strStartsWith specifier "file://"
    · simp only [hu, if_true]; exact tryUrl_recordInv env initState specifier h0
    · by_cases ha : env.isAbsolute specifier
      · simp only [hu, ha, if_false, if_true, Bool.false_eq_true]
        exact tryPath_recordInv env initState specifier h0
      · simp only [hu, ha, if_false, Bool.false_eq_true]; exact h0
  have h2 : recordInv (stage2 env specifier (stage1 env specifier)) := by
    unfold stage2
    by_cases hg : ((stage1 env specifier).found.isNone &&
        (strStartsWith specifier "./" || strStartsWith specifier "../")) = true
    · simp only [hg, if_true]
      have h' := tryPath_recordInv env (stage1 env specifier)
        (env.resolvePath env.cwd specifier) h1
      by_cases hn : (tryPath env (stage1 env specifier)
          (env.resolvePath env.cwd specifier)).2.found.isNone
      · simp only [hn, if_true]
        exact tryDirs_recordInv env specifier env.entrypointDirs _ h'
      · simp only [hn, if_false, Bool.false_eq_true]; exact h'
    · have hg' := Bool.not_eq_true _ ▸ hg
      simp only [eq_false_of_ne_true hg, if_false, Bool.false_eq_true]
      exact h1
  have h3 : recordInv (stage3 env specifier (stage2 env specifier
      (stage1 env specifier))) := by
    unfold stage3
    by_cases hn : (stage2 env specifier (stage1 env specifier)).found.isNone
    · simp only [hn, if_true]
      exact tryParents_recordInv env specifier env.entrypointUrlParents _ h2
    · simp only [hn, if_false, Bool.false_eq_true]; exact h2
  have h4 : recordInv (stage4 env specifier (stage3 env specifier
      (stage2 env specifier (stage1 env specifier)))) := by
    unfold stage4
    by_cases hn : (stage3 env specifier (stage2 env specifier
        (stage1 env specifier))).found.isNone
    · simp only [hn, if_true]; exact attemptIMR_recordInv env specifier _ none h3
    · simp only [hn, if_false, Bool.false_eq_true]; exact h3
  unfold resolveChain stage5
  by_cases hg : ((stage4 env specifier (stage3 env specifier (stage2 env specifier
      (stage1 env specifier)))).found.isNone &&
      !(strStartsWith specifier "file://" || env.isAbsolute specifier)) = true
  · simp only [hg, if_true]; exact tryPath_recordInv env _ _ h4
  · simp only [eq_false_of_ne_true hg, if_false, Bool.false_eq_true]; exact h4

/-! ### Claim theorems -/

/-- C1 (amended): when an asset entry resolves, its emitted `relativePath`
contains only characters in `[A-Za-z0-9._-]` and `/`.  (The no-`..`-segment
part of the claim is refuted by `c1_counterexample`: `.` is in the allowed
class, so `..` segments of a `targetName` survive sanitization.) -/
theorem c1_relative_path_charclass (env : ResolveEnv) (basename : String → String)
    (entry : AssetInput) (r : ResolvedAsset)
    (h : processEntry env basename entry = .ok r) :
    allowedPathChars r.relativePath = true := by
  simp only [processEntry] at h
  cases hrs : resolveSpec env (specifierOf entry) with
  | error e => rw [hrs] at h; cases h
  | ok f =>
    rw [hrs] at h
    have hr : r.relativePath =
        relativePathFor (targetNameOf entry) (basename f.path) (specifierOf entry) := by
      cases h; rfl
    rw [hr]
    unfold relativePathFor
    cases targetNameOf entry with
    | some t => exact normalizeTargetName_chars t
    | none => exact sanitized_allowedPathChars _

/-- Witness for `c1_relative_path_charclass`: a concrete resolvable entry. -/
theorem c1_relative_path_charclass_witness :
    allowedPathChars (ResolvedAsset.mk "/a.txt" "/a.txt" "file:///a.txt"
      "../evil" []).relativePath = true :=
  c1_relative_path_charclass envAbs (fun _ => "a.txt")
    (.obj "/a.txt" (some "../evil") none) _ (by rfl)

/-- C1 counterexample: the entry `{ specifier: "/a.txt", targetName:
"../evil" }` resolves (in `envAbs`) and its emitted `relativePath` is
`../evil`, which contains a `..` path segment — refuting the claim that the
emitted path never contains one and cannot escape the output root. -/
theorem c1_counterexample :
    processEntry envAbs (fun _ => "a.txt") (.obj "/a.txt" (some "../evil") none) =
      .ok ⟨"/a.txt", "/a.txt", "file:///a.txt", "../evil", []⟩ ∧
    hasDotDotSegment "../evil" = true :=
  ⟨by rfl, by decide⟩

/-- C2 counterexample: for the relative specifier `./a.txt` (note the `./`),
the code resolves through the module-resolution primitive (`envRelOracle`
makes every existence probe fail but the oracle succeed), while the claimed
strategy order — oracle "only for bare specifiers" — finds nothing. -/
theorem c2_counterexample :
    strStartsWith "./a.txt" "./" = true ∧
    (resolveChain envRelOracle "./a.txt").found.map Found.path = some "/pkg/a.txt" ∧
    resolveSpecClaimed envRelOracle "./a.txt" = none :=
  ⟨by decide, by decide, by decide⟩

/-- C7: on total resolution failure, the `NotFound` diagnostic payload lists
the attempted locations without duplicates, covers every candidate location
the chain ever considered (including ones skipped by deduplication), and
carries every resolver error observed. -/
theorem c7_notfound_diagnostics (env : ResolveEnv) (specifier : String)
    (e : NotFoundError) (h : resolveSpec env specifier = .error e) :
    e.attempted.Nodup ∧
    (∀ p ∈ (resolveChain env specifier).candidates, p ∈ e.attempted) ∧
    e.attempted = (resolveChain env specifier).attempted ∧
    e.errors = (resolveChain env specifier).errors := by
  have hInv := resolveChain_recordInv env specifier
  simp only [resolveSpec] at h
  cases hfo : (resolveChain env specifier).found with
  | some f => rw [hfo] at h; cases h
  | none =>
    rw [hfo] at h
    cases h
    exact ⟨hInv.1, hInv.2, rfl, rfl⟩

/-- Witness for `c7_notfound_diagnostics` at the concrete failing host
`envFail` (where the final cwd retry is deduplicated away). -/
theorem c7_notfound_diagnostics_witness :
    failE.attempted.Nodup ∧
    (∀ p ∈ (resolveChain envFail "./a.txt").candidates, p ∈ failE.attempted) ∧
    failE.attempted = (resolveChain envFail "./a.txt").attempted ∧
    failE.errors = (resolveChain envFail "./a.txt").errors :=
  c7_notfound_diagnostics envFail "./a.txt" failE (by rfl)

/-- C10: a plain string asset entry is processed identically to the object
form with the same specifier, no `targetName` and an empty `runtimeKeys`
list: same `ResolvedAsset` (hence same `relativePath`) and same manifest
lookup key set. -/
theorem c10_plain_string_equiv (env : ResolveEnv) (basename : String → String)
    (s : String) :
    processEntry env basename (.str s) =
      processEntry env basename (.obj s none (some [])) ∧
    (processEntry env basename (.str s)).map manifestKeys =
      (processEntry env basename (.obj s none (some []))).map manifestKeys :=
  ⟨rfl, rfl⟩

/-! ### Override-table lemmas (claims C4, C9) -/

lemma tableGet_none_of_not_hasOwn (t : Table) (k : String)
    (h : hasOwn t k = false) : tableGet t k = none := by
  unfold tableGet
  have : t.find? (fun e => e.1 = k) = none := by
    rw [List.find?_eq_none]
    intro e he hek
    have : hasOwn t k = true := by
      unfold hasOwn
      rw [List.any_eq_true]
      exact ⟨e, he, hek⟩
    rw [this] at h
    cases h
  rw [this]
  rfl

lemma tableGet_isSome_of_hasOwn (t : Table) (k : String)
    (h : hasOwn t k = true) : (tableGet t k).isSome = true := by
  unfold tableGet
  unfold hasOwn at h
  rw [List.any_eq_true] at h
  obtain ⟨e, he, hek⟩ := h
  have : (t.find? (fun e => e.1 = k)).isSome = true :=
    List.find?_isSome.mpr ⟨e, he, hek⟩
  cases hf : t.find? (fun e => e.1 = k) with
  | none => rw [hf] at this; cases this
  | some e' => rfl

lemma hasOwn_append_single (t : Table) (e : String × String) (k : String) :
    hasOwn (t ++ [e]) k = (hasOwn t k || decide (e.1 = k)) := by
  unfold hasOwn
  rw [List.any_append]
  simp

lemma tableGet_append_left (t l : Table) (k : String)
    (h : hasOwn t k = true) : tableGet (t ++ l) k = tableGet t k := by
  unfold tableGet
  rw [List.find?_append]
  cases hf : t.find? (fun e => e.1 = k) with
  | none =>
    have := tableGet_isSome_of_hasOwn t k h
    unfold tableGet at this
    rw [hf] at this
    cases this
  | some e => rfl

lemma tableGet_append_new (t : Table) (k v : String)
    (h : hasOwn t k = false) : tableGet (t ++ [(k, v)]) k = some v := by
  unfold tableGet
  rw [List.find?_append]
  have hn : t.find? (fun e => e.1 = k) = none := by
    have := tableGet_none_of_not_hasOwn t k h
    unfold tableGet at this
    cases hf : t.find? (fun e => e.1 = k) with
    | none => rfl
    | some e => rw [hf] at this; cases this
  rw [hn]
  simp [List.find?]

lemma tableGet_append_other (t : Table) (k' v k : String)
    (h : hasOwn t k = false) (hne : k' ≠ k) :
    tableGet (t ++ [(k', v)]) k = none := by
  unfold tableGet
  rw [List.find?_append]
  have hn : t.find? (fun e => e.1 = k) = none := by
    have := tableGet_none_of_not_hasOwn t k h
    unfold tableGet at this
    cases hf : t.find? (fun e => e.1 = k) with
    | none => rfl
    | some e => rw [hf] at this; cases this
  rw [hn]
  simp [List.find?, hne]

lemma insertIfAbsent_hasOwn_mono (t : Table) (k v key0 : String)
    (h : hasOwn t key0 = true) : hasOwn (insertIfAbsent t k v) key0 = true := by
  unfold insertIfAbsent
  by_cases hk : hasOwn t k
  · simp [hk, h]
  · simp only [hk, if_false, Bool.false_eq_true, hasOwn_append_single, h,
      Bool.true_or]

lemma insertIfAbsent_get_preserved (t : Table) (k v key0 : String)
    (h : hasOwn t key0 = true) :
    tableGet (insertIfAbsent t k v) key0 = tableGet t key0 := by
  unfold insertIfAbsent
  by_cases hk : hasOwn t k
  · simp [hk]
  · simp only [hk, if_false, Bool.false_eq_true]
    exact tableGet_append_left t [(k, v)] key0 h

lemma foldInsert_preserved (vs : List String) (t : Table) (v key0 : String)
    (h : hasOwn t key0 = true) :
    tableGet (vs.foldl (fun t x => insertIfAbsent t x v) t) key0 = tableGet t key0 ∧
    hasOwn (vs.foldl (fun t x => insertIfAbsent t x v) t) key0 = true := by
  induction vs generalizing t with
  | nil => exact ⟨rfl, h⟩
  | cons x rest ih =>
    simp only [List.foldl_cons]
    obtain ⟨ih1, ih2⟩ := ih (insertIfAbsent t x v)
      (insertIfAbsent_hasOwn_mono t x v key0 h)
    exact ⟨ih1.trans (insertIfAbsent_get_preserved t x v key0 h), ih2⟩

lemma registerKey_preserved (env : RuntimeEnv) (t : Table) (key v key0 : String)
    (h : hasOwn t key0 = true) :
    tableGet (registerKey env t key v) key0 = tableGet t key0 ∧
    hasOwn (registerKey env t key v) key0 = true := by
  unfold registerKey
  by_cases hk : key = ""
  · simp [hk, h]
  · simp only [hk, if_false]
    exact foldInsert_preserved (keyVariants env key) t v key0 h

lemma foldRegister_preserved (env : RuntimeEnv) (keys : List String)
    (t0 : Table) (v key0 : String) (h : hasOwn t0 key0 = true) :
    tableGet (keys.foldl (fun t k => registerKey env t k v) t0) key0 =
      tableGet t0 key0 ∧
    hasOwn (keys.foldl (fun t k => registerKey env t k v) t0) key0 = true := by
  induction keys generalizing t0 with
  | nil => exact ⟨rfl, h⟩
  | cons x rest ih =>
    simp only [List.foldl_cons]
    obtain ⟨g1, g2⟩ := registerKey_preserved env t0 x v key0 h
    obtain ⟨i1, i2⟩ := ih (registerKey env t0 x v) g2
    exact ⟨i1.trans g1, i2⟩

lemma registerAll_preserved (env : RuntimeEnv) (t : Table) (keys : List String)
    (v key0 : String) (h : hasOwn t key0 = true) :
    tableGet (registerAll env t keys v) key0 = tableGet t key0 ∧
    hasOwn (registerAll env t keys v) key0 = true := by
  unfold registerAll
  obtain ⟨h1, h2⟩ := registerKey_preserved env t v v key0 h
  cases hp : env.pathToFileURL v with
  | ok u =>
    obtain ⟨g1, g2⟩ := registerKey_preserved env (registerKey env t v v) u v key0 h2
    obtain ⟨f1, f2⟩ := foldRegister_preserved env keys
      (registerKey env (registerKey env t v v) u v) v key0 g2
    exact ⟨f1.trans (g1.trans h1), f2⟩
  | error e =>
    obtain ⟨f1, f2⟩ := foldRegister_preserved env keys (registerKey env t v v)
      v key0 h2
    exact ⟨f1.trans h1, f2⟩

lemma mem_foldInsert_get (vs : List String) (t : Table) (v w : String)
    (hw : w ∈ vs) (h : hasOwn t w = false) :
    tableGet (vs.foldl (fun t x => insertIfAbsent t x v) t) w = some v := by
  induction vs generalizing t with
  | nil => cases hw
  | cons x rest ih =>
    simp only [List.foldl_cons]
    by_cases hx : x = w
    · subst hx
      have ht' : insertIfAbsent t x v = t ++ [(x, v)] := by
        unfold insertIfAbsent
        simp [h]
      rw [ht']
      have hOwn : hasOwn (t ++ [(x, v)]) x = true := by
        rw [hasOwn_append_single]
        simp
      have := (foldInsert_preserved rest (t ++ [(x, v)]) v x hOwn).1
      rw [this]
      exact tableGet_append_new t x v h
    · have hw' : w ∈ rest := by
        rcases List.mem_cons.mp hw with h1 | h2
        · exact absurd h1.symm hx
        · exact h2
      have h' : hasOwn (insertIfAbsent t x v) w = false := by
        unfold insertIfAbsent
        by_cases hk : hasOwn t x
        · simp [hk, h]
        · simp only [hk, if_false, Bool.false_eq_true, hasOwn_append_single, h,
            Bool.false_or]
          simpa using hx
      exact ih (insertIfAbsent t x v) hw' h'

lemma mem_addV_left (vs : List String) (c a : String) (h : a ∈ vs) :
    a ∈ addV vs c := by
  unfold addV
  by_cases hc : c = ""
  · rw [if_neg (by simp [hc])]
    exact h
  · rw [if_pos hc]
    by_cases hm : vs.contains c = true
    · rw [if_pos hm]
      exact h
    · rw [if_neg hm]
      exact List.mem_append.mpr (Or.inl h)

lemma mem_addV_self (vs : List String) (c : String) (hc : c ≠ "") :
    c ∈ addV vs c := by
  unfold addV
  rw [if_pos hc]
  by_cases hm : vs.contains c = true
  · rw [if_pos hm]
    simpa using hm
  · rw [if_neg hm]
    exact List.mem_append.mpr (Or.inr (by simp))

lemma mem_addVO_left (vs : List String) (c : Option String) (a : String)
    (h : a ∈ vs) : a ∈ addVO vs c := by
  cases c with
  | none => exact h
  | some s => exact mem_addV_left vs s a h

lemma key_mem_keyVariants (env : RuntimeEnv) (key : String) :
    key ∈ keyVariants env key := by
  unfold keyVariants
  have h0 : key ∈ [key] := by simp
  split_ifs
  · exact mem_addVO_left _ _ _ h0
  · exact mem_addV_left _ _ _ h0
  · exact mem_addVO_left _ _ _ h0
  · exact mem_addV_left _ _ _ (mem_addV_left _ _ _
      (mem_addVO_left _ _ _ (mem_addV_left _ _ _ h0)))
  · exact mem_addVO_left _ _ _ (mem_addV_left _ _ _ h0)
  · exact h0

lemma registerKey_sets (env : RuntimeEnv) (t : Table) (k v : String)
    (hk : k ≠ "") (h : hasOwn t k = false) :
    tableGet (registerKey env t k v) k = some v := by
  unfold registerKey
  simp only [hk, if_false]
  exact mem_foldInsert_get (keyVariants env k) t v k (key_mem_keyVariants env k) h

lemma mem_variant_registered (env : RuntimeEnv) (t : Table) (key v w : String)
    (hkey : key ≠ "") (hw : w ∈ keyVariants env key) (h : hasOwn t w = false) :
    tableGet (registerKey env t key v) w = some v := by
  unfold registerKey
  simp only [hkey, if_false]
  exact mem_foldInsert_get (keyVariants env key) t v w hw h

lemma insertIfAbsent_get_or (t : Table) (k v key0 : String) :
    tableGet (insertIfAbsent t k v) key0 = tableGet t key0 ∨
    tableGet (insertIfAbsent t k v) key0 = some v := by
  unfold insertIfAbsent
  by_cases hk : hasOwn t k
  · left; simp [hk]
  · simp only [hk, if_false, Bool.false_eq_true]
    by_cases h0 : hasOwn t key0
    · left; exact tableGet_append_left t [(k, v)] key0 h0
    · have h0' : hasOwn t key0 = false := by simpa using h0
      by_cases hkk : k = key0
      · right
        subst hkk
        exact tableGet_append_new t k v h0'
      · left
        rw [tableGet_append_other t k v key0 h0' hkk]
        exact (tableGet_none_of_not_hasOwn t key0 h0').symm

lemma foldInsert_get_or (vs : List String) (t : Table) (v key0 : String) :
    tableGet (vs.foldl (fun t x => insertIfAbsent t x v) t) key0 = tableGet t key0 ∨
    tableGet (vs.foldl (fun t x => insertIfAbsent t x v) t) key0 = some v := by
  induction vs generalizing t with
  | nil => left; rfl
  | cons x rest ih =>
    simp only [List.foldl_cons]
    rcases ih (insertIfAbsent t x v) with h | h
    · rcases insertIfAbsent_get_or t x v key0 with g | g
      · left; exact h.trans g
      · right; exact h.trans g
    · right; exact h

lemma registerKey_get_or (env : RuntimeEnv) (t : Table) (key v key0 : String) :
    tableGet (registerKey env t key v) key0 = tableGet t key0 ∨
    tableGet (registerKey env t key v) key0 = some v := by
  unfold registerKey
  by_cases hk : key = ""
  · left; simp [hk]
  · simp only [hk, if_false]
    exact foldInsert_get_or (keyVariants env key) t v key0

lemma foldRegister_get_or (env : RuntimeEnv) (keys : List String)
    (t0 : Table) (v key0 : String) :
    tableGet (keys.foldl (fun t k => registerKey env t k v) t0) key0 =
      tableGet t0 key0 ∨
    tableGet (keys.foldl (fun t k => registerKey env t k v) t0) key0 = some v := by
  induction keys generalizing t0 with
  | nil => left; rfl
  | cons x rest ih =>
    simp only [List.foldl_cons]
    rcases ih (registerKey env t0 x v) with h | h
    · rcases registerKey_get_or env t0 x v key0 with g | g
      · left; exact h.trans g
      · right; exact h.trans g
    · right; exact h

lemma registerAll_get_or (env : RuntimeEnv) (t : Table) (keys : List String)
    (v key0 : String) :
    tableGet (registerAll env t keys v) key0 = tableGet t key0 ∨
    tableGet (registerAll env t keys v) key0 = some v := by
  unfold registerAll
  cases hp : env.pathToFileURL v with
  | ok u =>
    rcases foldRegister_get_or env keys
      (registerKey env (registerKey env t v v) u v) v key0 with h | h
    · rcases registerKey_get_or env (registerKey env t v v) u v key0 with g | g
      · rcases registerKey_get_or env t v v key0 with f | f
        · left; exact (h.trans g).trans f
        · right; exact (h.trans g).trans f
      · right; exact h.trans g
    · right; exact h
  | error e =>
    rcases foldRegister_get_or env keys (registerKey env t v v) v key0 with h | h
    · rcases registerKey_get_or env t v v key0 with f | f
      · left; exact h.trans f
      · right; exact h.trans f
    · right; exact h

lemma registerKey_hasOwn_self (env : RuntimeEnv) (t : Table) (k v : String)
    (hk : k ≠ "") : hasOwn (registerKey env t k v) k = true := by
  by_cases h : hasOwn t k
  · exact (registerKey_preserved env t k v k h).2
  · have h' : hasOwn t k = false := by simpa using h
    have := registerKey_sets env t k v hk h'
    cases ho : hasOwn (registerKey env t k v) k with
    | true => rfl
    | false =>
      rw [tableGet_none_of_not_hasOwn _ _ ho] at this
      cases this

lemma registerKey_hasOwn_mono (env : RuntimeEnv) (t : Table) (key v key0 : String)
    (h : hasOwn t key0 = true) : hasOwn (registerKey env t key v) key0 = true :=
  (registerKey_preserved env t key v key0 h).2

lemma foldRegister_hasOwn_mono (env : RuntimeEnv) (keys : List String)
    (t0 : Table) (v key0 : String) (h : hasOwn t0 key0 = true) :
    hasOwn (keys.foldl (fun t k => registerKey env t k v) t0) key0 = true := by
  induction keys generalizing t0 with
  | nil => exact h
  | cons x rest ih =>
    simp only [List.foldl_cons]
    exact ih (registerKey env t0 x v) (registerKey_hasOwn_mono env t0 x v key0 h)

lemma foldRegister_hasOwn_of_mem (env : RuntimeEnv) (keys : List String)
    (t0 : Table) (v k : String) (hk : k ≠ "") (hmem : k ∈ keys) :
    hasOwn (keys.foldl (fun t k => registerKey env t k v) t0) k = true := by
  induction keys generalizing t0 with
  | nil => cases hmem
  | cons x rest ih =>
    simp only [List.foldl_cons]
    by_cases hx : x = k
    · subst hx
      exact foldRegister_hasOwn_mono env rest (registerKey env t0 x v) v x
        (registerKey_hasOwn_self env t0 x v hk)
    · have hmem' : k ∈ rest := by
        rcases List.mem_cons.mp hmem with h1 | h2
        · exact absurd h1.symm hx
        · exact h2
      exact ih (registerKey env t0 x v) hmem'

lemma registerAll_hasOwn_of_mem (env : RuntimeEnv) (t : Table)
    (keys : List String) (v k : String) (hk : k ≠ "") (hmem : k ∈ keys) :
    hasOwn (registerAll env t keys v) k = true := by
  unfold registerAll
  cases hp : env.pathToFileURL v with
  | ok u => exact foldRegister_hasOwn_of_mem env keys _ v k hk hmem
  | error e => exact foldRegister_hasOwn_of_mem env keys _ v k hk hmem

/-- C4: first-write-wins.  If a lookup key `k` is not yet in the table and
belongs to the first asset's manifest keys, then after registering the first
asset (output path `v1`) and a second asset (output path `v2`) whose keys
also contain `k` — or any keys at all — the table still maps `k` to `v1`:
the later duplicate registration is ignored. -/
theorem c4_first_write_wins (env : RuntimeEnv) (t : Table) (k v1 v2 : String)
    (keys1 keys2 : List String) (hk : k ≠ "") (h0 : hasOwn t k = false)
    (hmem : k ∈ keys1) :
    tableGet (registerAll env t keys1 v1) k = some v1 ∧
    tableGet (registerAll env (registerAll env t keys1 v1) keys2 v2) k = some v1 := by
  have hOwn : hasOwn (registerAll env t keys1 v1) k = true :=
    registerAll_hasOwn_of_mem env t keys1 v1 k hk hmem
  have hget : tableGet (registerAll env t keys1 v1) k = some v1 := by
    rcases registerAll_get_or env t keys1 v1 k with h | h
    · rw [tableGet_none_of_not_hasOwn t k h0] at h
      have := tableGet_isSome_of_hasOwn _ k hOwn
      rw [h] at this
      cases this
    · exact h
  exact ⟨hget, (registerAll_preserved env (registerAll env t keys1 v1) keys2 v2 k
    hOwn).1.trans hget⟩

/-- Witness for `c4_first_write_wins`: two assets sharing the runtime key
`shared-alias`; the override table keeps the first asset's output path. -/
theorem c4_first_write_wins_witness :
    tableGet (registerAll envRT [] ["shared-alias"] "/out/a") "shared-alias" =
      some "/out/a" ∧
    tableGet (registerAll envRT (registerAll envRT [] ["shared-alias"] "/out/a")
      ["shared-alias"] "/out/b") "shared-alias" = some "/out/a" :=
  c4_first_write_wins envRT [] "shared-alias" "/out/a" "/out/b"
    ["shared-alias"] ["shared-alias"] (by decide) (by decide) (by decide)

lemma append_ne_empty (a s : String) (ha : a.data ≠ []) : (a ++ s) ≠ "" := by
  intro h
  have := congrArg String.data h
  rw [data_append] at this
  rcases List.append_eq_nil.mp this with ⟨h1, _⟩
  exact ha h1

/-- C9: `registerKey` expands each key into its equivalent forms, all mapped
to the same value under first-write-wins: a `file://` key also registers its
filesystem-path form; a `/$bunfs/root/...` key its `file://` form; an
absolute key its URL form; a `./`/`../` key its runtime-dir-resolved absolute
path, that path's URL form and (for `./` keys) the two `$bunfs` sandbox
variants.  Non-empty-string guards mirror `addVariant`. -/
theorem c9_register_key_variants (env : RuntimeEnv) (key : String) :
    key ∈ keyVariants env key ∧
    (strStartsWith key "file://" = true →
      ∀ p, env.fileURLToPath key = .ok p → p ≠ "" → p ∈ keyVariants env key) ∧
    (strStartsWith key "file://" = false →
      strStartsWith key "/$bunfs/root/" = true →
      ("file://" ++ key) ∈ keyVariants env key) ∧
    (strStartsWith key "file://" = false →
      strStartsWith key "/$bunfs/root/" = false →
      env.isAbsolute key = true →
      ∀ u, env.pathToFileURL key = .ok u → u ≠ "" → u ∈ keyVariants env key) ∧
    (strStartsWith key "file://" = false →
      strStartsWith key "/$bunfs/root/" = false →
      env.isAbsolute key = false →
      (strStartsWith key "./" || strStartsWith key "../") = true →
      ((env.resolvePath env.runtimeDir key ≠ "" →
        env.resolvePath env.runtimeDir key ∈ keyVariants env key) ∧
       (∀ u, env.pathToFileURL (env.resolvePath env.runtimeDir key) = .ok u →
        u ≠ "" → u ∈ keyVariants env key) ∧
       (strStartsWith key "./" = true →
        ("/$bunfs/root/" ++ sliceTwo key) ∈ keyVariants env key ∧
        ("file:///$bunfs/root/" ++ sliceTwo key) ∈ keyVariants env key))) ∧
    (∀ (t : Table) (v w : String), key ≠ "" → w ∈ keyVariants env key →
      hasOwn t w = false → tableGet (registerKey env t key v) w = some v) := by
  refine ⟨key_mem_keyVariants env key, ?_, ?_, ?_, ?_, ?_⟩
  · intro hu p hp hpne
    unfold keyVariants
    simp only [hu, if_true, hp, Except.toOption, addVO]
    exact mem_addV_self _ p hpne
  · intro hu hb
    unfold keyVariants
    simp only [hu, hb, if_true, if_false, Bool.false_eq_true]
    exact mem_addV_self _ _ (append_ne_empty "file://" key (by decide))
  · intro hu hb ha u hu2 hune
    unfold keyVariants
    simp only [hu, hb, ha, if_true, if_false, Bool.false_eq_true, hu2,
      Except.toOption, addVO]
    exact mem_addV_self _ u hune
  · intro hu hb ha hrel
    unfold keyVariants
    simp only [hu, hb, ha, hrel, if_true, if_false, Bool.false_eq_true]
    refine ⟨fun habs => ?_, fun u hu2 hune => ?_, fun hdot => ?_⟩
    · by_cases hd : strStartsWith key "./" = true
      · simp only [hd, if_true]
        exact mem_addV_left _ _ _ (mem_addV_left _ _ _
          (mem_addVO_left _ _ _ (mem_addV_self _ _ habs)))
      · simp only [hd, if_false, Bool.false_eq_true]
        exact mem_addVO_left _ _ _ (mem_addV_self _ _ habs)
    · rw [hu2]
      by_cases hd : strStartsWith key "./" = true
      · simp only [hd, if_true, Except.toOption, addVO]
        exact mem_addV_left _ _ _ (mem_addV_left _ _ _ (mem_addV_self _ u hune))
      · simp only [hd, if_false, Bool.false_eq_true, Except.toOption, addVO]
        exact mem_addV_self _ u hune
    · simp only [hdot, if_true]
      constructor
      · exact mem_addV_left _ _ _ (mem_addV_self _ _
          (append_ne_empty "/$bunfs/root/" (sliceTwo key) (by decide)))
      · exact mem_addV_self _ _
          (append_ne_empty "file:///$bunfs/root/" (sliceTwo key) (by decide))
  · intro t v w hkey hw h
    exact mem_variant_registered env t key v w hkey hw h

/-- Witness for `c9_register_key_variants` at the relative key `./x` under
the concrete runtime host `envRT`. -/
theorem c9_register_key_variants_witness :
    ("/rt/./x" ∈ keyVariants envRT "./x") ∧
    ("file:///rt/./x" ∈ keyVariants envRT "./x") ∧
    ("/$bunfs/root/" ++ sliceTwo "./x" ∈ keyVariants envRT "./x") ∧
    ("file:///$bunfs/root/" ++ sliceTwo "./x" ∈ keyVariants envRT "./x") ∧
    tableGet (registerKey envRT [] "./x" "/out") "./x" = some "/out" := by
  obtain ⟨h1, h2, h3, h4, h5, h6⟩ := c9_register_key_variants envRT "./x"
  obtain ⟨a1, a2, a3⟩ := h5 (by decide) (by decide) (by decide) (by decide)
  obtain ⟨b1, b2⟩ := a3 (by decide)
  exact ⟨a1 (by decide), a2 "file:///rt/./x" (by rfl) (by decide), b1, b2,
    h6 [] "/out" "./x" (by decide) h1 (by decide)⟩

/-- C3: each patched resolution entry point returns a direct override without
consulting the original resolver (the result is independent of it); on a
table miss it runs the original and maps its successful result through the
override lookup (returning it unchanged on a second miss); and when the
original fails, the re-check of the table finds nothing new (it was already
missed), so the original failure propagates. -/
theorem c3_patched_lookup_order (env : RuntimeEnv) (table : Option Table)
    (original : String → Except String String) (specifier : String) :
    (∀ v, findOverride env table specifier = some v →
      ∀ original2 : String → Except String String,
        patchedResolveSync env table original2 specifier = .ok v ∧
        patchedResolveAsync env table original2 specifier = .ok v ∧
        patchedMetaResolve env table original2 specifier = .ok v) ∧
    (findOverride env table specifier = none →
      (∀ r, original specifier = .ok r →
        patchedResolveSync env table original specifier =
          .ok ((findOverride env table r).getD r) ∧
        patchedResolveAsync env table original specifier =
          .ok ((findOverride env table r).getD r) ∧
        patchedMetaResolve env table original specifier =
          .ok ((findOverride env table r).getD r)) ∧
      (∀ err, original specifier = .error err →
        patchedResolveSync env table original specifier = .error err ∧
        patchedResolveAsync env table original specifier = .error err ∧
        patchedMetaResolve env table original specifier = .error err)) := by
  constructor
  · intro v hv original2
    refine ⟨?_, ?_, ?_⟩ <;>
      simp [patchedResolveSync, patchedResolveAsync, patchedMetaResolve, hv]
  · intro hn
    constructor
    · intro r hr
      have happ : applyOverride env table specifier r =
          (findOverride env table r).getD r := by
        unfold applyOverride
        rw [hn]
        cases findOverride env table r <;> simp
      refine ⟨?_, ?_, ?_⟩ <;>
        simp [patchedResolveSync, patchedResolveAsync, patchedMetaResolve,
          hn, hr, happ]
    · intro err herr
      refine ⟨?_, ?_, ?_⟩ <;>
        simp [patchedResolveSync, patchedResolveAsync, patchedMetaResolve,
          hn, herr]

/-- Witness for `c3_patched_lookup_order`: a table hit short-circuits all
three patched entry points even though the original resolver always fails. -/
theorem c3_patched_lookup_order_witness :
    patchedResolveSync envRT (some [("k", "/out")]) (fun _ => .error "nope") "k" =
      .ok "/out" ∧
    patchedResolveAsync envRT (some [("k", "/out")]) (fun _ => .error "nope") "k" =
      .ok "/out" ∧
    patchedMetaResolve envRT (some [("k", "/out")]) (fun _ => .error "nope") "k" =
      .ok "/out" :=
  (c3_patched_lookup_order envRT (some [("k", "/out")])
    (fun _ => .error "nope") "k").1 "/out" (by rfl) (fun _ => .error "nope")

/-- C5: resolver patching is one-shot per process.  Installing always leaves
the process in the installed state; with the flag already set, installation
is the identity (hence idempotent); a first installation replaces each entry
point by its patched wrapper, where patching an unmarked slot adds exactly
one wrapper layer and the marker, and patching a marked slot is a no-op (no
double wrap); a second injected block leaves all three entry points exactly
as the first left them; and no injected block ever clears the flag. -/
theorem c5_resolvers_install_once (p : ProcState) (o1 o2 : Table) :
    (installResolvers p).resolversInstalled = true ∧
    (p.resolversInstalled = true → installResolvers p = p) ∧
    installResolvers (installResolvers p) = installResolvers p ∧
    (p.resolversInstalled = false →
      (installResolvers p).resolveSyncSlot = patchSlot p.resolveSyncSlot ∧
      (installResolvers p).resolveAsyncSlot = patchSlot p.resolveAsyncSlot ∧
      (installResolvers p).metaResolveSlot = patchSlot p.metaResolveSlot) ∧
    (p.resolveSyncSlot.marker = false →
      (patchSlot p.resolveSyncSlot).wraps = p.resolveSyncSlot.wraps + 1 ∧
      (patchSlot p.resolveSyncSlot).marker = true) ∧
    (p.resolveSyncSlot.marker = true →
      patchSlot p.resolveSyncSlot = p.resolveSyncSlot) ∧
    ((runInjectedBlock (runInjectedBlock p o1) o2).resolveSyncSlot =
      (runInjectedBlock p o1).resolveSyncSlot ∧
     (runInjectedBlock (runInjectedBlock p o1) o2).resolveAsyncSlot =
      (runInjectedBlock p o1).resolveAsyncSlot ∧
     (runInjectedBlock (runInjectedBlock p o1) o2).metaResolveSlot =
      (runInjectedBlock p o1).metaResolveSlot) ∧
    (runInjectedBlock p o1).resolversInstalled = true := by
  have hinst : ∀ q : ProcState, (installResolvers q).resolversInstalled = true := by
    intro q
    unfold installResolvers
    by_cases hq : q.resolversInstalled <;> simp [hq]
  have hid : ∀ q : ProcState, q.resolversInstalled = true →
      installResolvers q = q := by
    intro q hq
    unfold installResolvers
    simp [hq]
  have hblock : ∀ (q : ProcState) (o : Table),
      (runInjectedBlock q o).resolversInstalled = true := by
    intro q o
    unfold runInjectedBlock
    exact hinst _
  refine ⟨hinst p, hid p, hid _ (hinst p), ?_, ?_, ?_, ?_, hblock p o1⟩
  · intro hp
    unfold installResolvers
    simp [hp]
  · intro hm
    unfold patchSlot
    simp [hm]
  · intro hm
    unfold patchSlot
    simp [hm]
  · have h2 : runInjectedBlock (runInjectedBlock p o1) o2 =
        { runInjectedBlock p o1 with
          globalTable := some (mergeIntoGlobal (runInjectedBlock p o1).globalTable o2) } := by
      unfold runInjectedBlock mergeGlobalTable
      apply hid
      exact hinst _
    rw [h2]
    exact ⟨rfl, rfl, rfl⟩

/-- Witness for `c5_resolvers_install_once`: the fresh process: first install
wraps each entry point once and marks it; a second install changes nothing. -/
theorem c5_resolvers_install_once_witness :
    (installResolvers freshProc).resolveSyncSlot = patchSlot freshProc.resolveSyncSlot ∧
    (patchSlot freshProc.resolveSyncSlot).wraps = freshProc.resolveSyncSlot.wraps + 1 ∧
    (patchSlot freshProc.resolveSyncSlot).marker = true ∧
    installResolvers (installResolvers freshProc) = installResolvers freshProc := by
  obtain ⟨h1, h2, h3, h4, h5, h6, h7, h8⟩ :=
    c5_resolvers_install_once freshProc [] []
  obtain ⟨a1, -, -⟩ := h4 (by rfl)
  obtain ⟨b1, b2⟩ := h5 (by rfl)
  exact ⟨a1, b1, b2, h3⟩

/-! ### Merge lemmas (claim C6) -/

lemma tableGet_map_set_other (t : Table) (k' v k : String) (hne : k' ≠ k) :
    tableGet (t.map (fun e => if e.1 = k' then (k', v) else e)) k =
      tableGet t k := by
  induction t with
  | nil => rfl
  | cons e rest ih =>
    by_cases he : e.1 = k'
    · have h1 : (decide ((k', v).1 = k)) = false := by simp [hne]
      have h2 : (decide (e.1 = k)) = false := by simp [he, hne]
      simp only [List.map_cons, tableGet, List.find?_cons, he, if_true, h1, h2]
      simpa only [tableGet] using ih
    · simp only [List.map_cons, tableGet, List.find?_cons, he, if_false]
      cases hd : decide (e.1 = k) with
      | true => simp only [hd]
      | false =>
        simp only [hd]
        simpa only [tableGet] using ih

lemma tableGet_map_set_self (t : Table) (k v : String)
    (h : hasOwn t k = true) :
    tableGet (t.map (fun e => if e.1 = k then (k, v) else e)) k = some v := by
  induction t with
  | nil => cases h
  | cons e rest ih =>
    by_cases he : e.1 = k
    · simp only [List.map_cons, tableGet, List.find?_cons, he, if_true]
      simp
    · have hrest : hasOwn rest k = true := by
        unfold hasOwn at h ⊢
        simp only [List.any_cons, he] at h
        simpa using h
      have hd : (decide (e.1 = k)) = false := by simp [he]
      simp only [List.map_cons, tableGet, List.find?_cons, he, if_false, hd]
      simpa only [tableGet] using ih hrest

lemma setKey_get_self (t : Table) (k v : String) :
    tableGet (setKey t k v) k = some v := by
  unfold setKey
  by_cases h : hasOwn t k
  · simp only [h, if_true]
    exact tableGet_map_set_self t k v h
  · have h' : hasOwn t k = false := by simpa using h
    simp only [h, if_false, Bool.false_eq_true]
    exact tableGet_append_new t k v h'

lemma setKey_get_other (t : Table) (k' v k : String) (hne : k' ≠ k) :
    tableGet (setKey t k' v) k = tableGet t k := by
  unfold setKey
  by_cases h : hasOwn t k'
  · simp only [h, if_true]
    exact tableGet_map_set_other t k' v k hne
  · simp only [h, if_false, Bool.false_eq_true]
    by_cases h0 : hasOwn t k
    · exact tableGet_append_left t [(k', v)] k h0
    · have h0' : hasOwn t k = false := by simpa using h0
      rw [tableGet_append_other t k' v k h0' hne,
        tableGet_none_of_not_hasOwn t k h0']

lemma foldSetKey_other (ov : Table) (t : Table) (k : String)
    (h : ov.any (fun e => e.1 = k) = false) :
    tableGet (ov.foldl (fun t e => setKey t e.1 e.2) t) k = tableGet t k := by
  induction ov generalizing t with
  | nil => rfl
  | cons e rest ih =>
    simp only [List.any_cons, Bool.or_eq_false_iff] at h
    simp only [List.foldl_cons]
    rw [ih (setKey t e.1 e.2) h.2]
    exact setKey_get_other t e.1 e.2 k (by simpa using h.1)

/-- C6 counterexample: a key present both in the pre-existing global table
(value `/old`, from a previous installation) and in the new block's
overrides (value `/new`) ends up mapped to `/new`: the merge does clobber
pre-existing entries on key collision. -/
theorem c6_counterexample :
    tableGet (mergeIntoGlobal (some [("k", "/old")]) [("k", "/new")]) "k" =
      some "/new" ∧ ("/old" : String) ≠ "/new" :=
  ⟨by decide, by decide⟩

/-- C6 (amended): the merge reuses the existing global object (never resets
it): every pre-existing key absent from the new block's overrides keeps its
previous value, while keys present in the overrides are overwritten with the
new block's value (later block wins on collision). -/
theorem c6_merge_preserves_unclaimed_keys (cur ov : Table) (k : String) :
    (ov.any (fun e => e.1 = k) = false →
      tableGet (mergeIntoGlobal (some cur) ov) k = tableGet cur k) ∧
    (∀ v, (ov.map Prod.fst).Nodup → (k, v) ∈ ov →
      tableGet (mergeIntoGlobal (some cur) ov) k = some v) := by
  constructor
  · intro h
    unfold mergeIntoGlobal
    exact foldSetKey_other ov cur k h
  · intro v hnd hmem
    unfold mergeIntoGlobal
    induction ov generalizing cur with
    | nil => cases hmem
    | cons e rest ih =>
      simp only [List.map_cons, List.nodup_cons] at hnd
      simp only [List.foldl_cons]
      rcases List.mem_cons.mp hmem with he | he
      · have he1 : e.1 = k := by rw [← he]
        have hrest : rest.any (fun x => x.1 = k) = false := by
          rw [List.any_eq_false]
          intro x hx hxk
          simp only [decide_eq_true_eq] at hxk
          apply hnd.1
          rw [he1, ← hxk]
          exact List.mem_map_of_mem Prod.fst hx
        rw [foldSetKey_other rest _ k hrest]
        have he2 : e = (k, v) := he.symm
        rw [he2]
        exact setKey_get_self cur k v
      · exact ih (setKey cur e.1 e.2) hnd.2 he

/-- Witness for `c6_merge_preserves_unclaimed_keys`: merging `[(k, new)]`
into a table holding `a` preserves `a` and sets `k`. -/
theorem c6_merge_preserves_unclaimed_keys_witness :
    tableGet (mergeIntoGlobal (some [("a", "1")]) [("k", "new")]) "a" =
      tableGet [("a", "1")] "a" ∧
    tableGet (mergeIntoGlobal (some [("a", "1")]) [("k", "new")]) "k" =
      some "new" :=
  ⟨(c6_merge_preserves_unclaimed_keys [("a", "1")] [("k", "new")] "a").1
      (by decide),
   (c6_merge_preserves_unclaimed_keys [("a", "1")] [("k", "new")] "k").2
      "new" (by decide) (by decide)⟩

/-! ### Extraction lemmas (claim C8) -/

lemma catchIgnore_ok {σ : Type} (b : Except σ σ) :
    ∃ s, catchIgnore b = .ok s := by
  cases b with
  | ok s => exact ⟨s, rfl⟩
  | error s => exact ⟨s, rfl⟩

lemma writeAssetFile_ok {σ : Type} (env : ExtractEnv σ) (s : σ)
    (outputPath buffer : String) :
    ∃ r, writeAssetFile env s outputPath buffer = .ok r := by
  unfold writeAssetFile
  by_cases h : env.existsSync s outputPath
  · exact ⟨s, by simp [h]⟩
  · simp only [h, if_false, Bool.false_eq_true]
    obtain ⟨s1, h1⟩ := catchIgnore_ok (env.mkdirSync s (env.dirname outputPath))
    rw [h1]
    obtain ⟨s2, h2⟩ := catchIgnore_ok (env.writeFileSync s1 outputPath buffer)
    exact ⟨s2, h2⟩

lemma extractBunfsKey_ok {σ : Type} (env : ExtractEnv σ) (buffer : String)
    (s : σ) (key : String) : ∃ r, extractBunfsKey env buffer s key = .ok r := by
  unfold extractBunfsKey
  cases bunfsUrlOf key with
  | none => exact ⟨s, rfl⟩
  | some u => exact catchIgnore_ok _

lemma foldlM_ok {σ α β : Type} (f : β → α → Except σ β)
    (hf : ∀ b a, ∃ r, f b a = .ok r) :
    ∀ (l : List α) (init : β), ∃ r, List.foldlM f init l = .ok r
  | [], init => ⟨init, rfl⟩
  | a :: l, init => by
    obtain ⟨r1, h1⟩ := hf init a
    show ∃ r, (f init a >>= fun b => List.foldlM f b l) = .ok r
    rw [h1]
    exact foldlM_ok f hf l r1

lemma extractOneAsset_ok {σ : Type} (env : ExtractEnv σ) (s : σ)
    (outputPath buffer : String) (keys : List String) :
    ∃ r, extractOneAsset env s outputPath buffer keys = .ok r := by
  unfold extractOneAsset
  obtain ⟨s1, h1⟩ := writeAssetFile_ok env s outputPath buffer
  rw [h1]
  exact foldlM_ok _ (fun b a => extractBunfsKey_ok env buffer b a) keys s1

/-- C8: the embed-mode startup extraction block never propagates a
filesystem failure: for every host behavior (any pattern of `mkdirSync` /
`writeFileSync` failures, any URL-parse failures), the block runs to
completion normally. -/
theorem c8_extraction_never_throws {σ : Type} (env : ExtractEnv σ)
    (renv : RuntimeEnv) (cacheDir : String) (s : σ)
    (encoded : List EncodedAsset) (t : Table) :
    ∃ r, extractBlock env renv cacheDir s encoded t = .ok r := by
  unfold extractBlock
  obtain ⟨s0, h0⟩ := catchIgnore_ok
    (if env.existsSync s cacheDir then .ok s else env.mkdirSync s cacheDir)
  unfold ensureCacheDir
  rw [h0]
  refine foldlM_ok _ ?_ encoded (s0, t)
  intro acc asset
  obtain ⟨r1, h1⟩ := extractOneAsset_ok env acc.1
    (env.joinPath cacheDir (splitSep (fun c => c = '/') asset.relativePath.data))
    (env.decodeBase64 asset.data) asset.keys
  refine ⟨(r1, registerAll renv acc.2 asset.keys
    (env.joinPath cacheDir (splitSep (fun c => c = '/') asset.relativePath.data))), ?_⟩
  simp only [h1, Except.map]

end BunPluginBundle
